import Mathlib

/-!
Verification development for the TracePulse core tracer
(`src/tracepulse/tracer.py`).

The Python code is shallowly embedded as follows:

* byte buffers and Python strings are modelled as `List Char` (one `Char`
  per byte; all inputs exercised here are ASCII, where `bytes`/`str`
  operations of the source coincide with the character-wise model);
* durations (milliseconds) are modelled as exact rationals `ℚ` instead of
  IEEE floats — the arithmetic performed by the source is plain sums,
  which the rational model reproduces exactly;
* the network is an oracle `Hop` describing, for each requested URL, the
  outcome of every transport phase (resolution, connect, handshake,
  send/first byte, and the sequence of reads delivered to the transfer
  loop);
* Python exceptions are values of `PyExn`; code inside the big
  `try:` of `trace_request` runs in an error monad whose failures are
  converted to an error-annotated `TimingBreakdown` by the `except`
  clauses, while code before the `try:` escapes as `Except.error`.
-/

set_option maxHeartbeats 1000000

/-- Byte strings (and Python `str`) are modelled as lists of characters. -/
abbrev BStr := List Char

/-- Boolean test that `pat` is a prefix of `s` (Python `startswith`). -/
def bstrStartsWith : BStr → BStr → Bool
  | [], _ => true
  | _ :: _, [] => false
  | p :: ps, c :: cs => p == c && bstrStartsWith ps cs

/-- Boolean test that `pat` is a suffix of `s` (Python `endswith`). -/
def bstrEndsWith (pat s : BStr) : Bool :=
  bstrStartsWith pat.reverse s.reverse

/-- Index of the first occurrence of `pat` in `s`, as in Python `find`
(`none` plays the role of `-1`). -/
def findSeq (pat : BStr) : BStr → Option Nat
  | [] => if pat = [] then some 0 else none
  | c :: rest =>
    if bstrStartsWith pat (c :: rest) then some 0
    else (findSeq pat rest).map (fun i => i + 1)

/-- Python `pat in s` on byte strings. -/
def containsSeq (s pat : BStr) : Bool :=
  (findSeq pat s).isSome

/-- Python `s.split("\r\n")` (split on every occurrence, left to right). -/
def splitCRLF : BStr → List BStr
  | [] => [[]]
  | [c] => [[c]]
  | c1 :: c2 :: rest =>
    if c1 = '\r' ∧ c2 = '\n' then [] :: splitCRLF rest
    else
      match splitCRLF (c2 :: rest) with
      | [] => [[c1]]
      | h :: t => (c1 :: h) :: t

/-- Split at the first occurrence of `sep` (Python `split(sep, 1)` when it
matches), returning the parts before and after. -/
def splitFirstSeq (sep s : BStr) : Option (BStr × BStr) :=
  match findSeq sep s with
  | none => none
  | some i => some (s.take i, s.drop (i + sep.length))

/-- Split at the first occurrence of the character `sep`. -/
def splitFirstChar (sep : Char) : BStr → Option (BStr × BStr)
  | [] => none
  | c :: rest =>
    if c = sep then some ([], rest)
    else (splitFirstChar sep rest).map (fun p => (c :: p.1, p.2))

/-- Python `s.split(" ", maxsplit)`; at most `maxsplit` splits are made. -/
def splitCharMax (sep : Char) : Nat → BStr → List BStr
  | 0, s => [s]
  | n + 1, s =>
    match splitFirstChar sep s with
    | none => [s]
    | some (a, b) => a :: splitCharMax sep n b

/-- Characters stripped by Python `str.strip()` with no argument. -/
def isPyWS (c : Char) : Bool :=
  c == ' ' || c == '\t' || c == '\n' || c == '\r' || c == '\x0b' || c == '\x0c'

/-- Python `s.strip()`. -/
def stripWS (s : BStr) : BStr :=
  ((s.dropWhile isPyWS).reverse.dropWhile isPyWS).reverse

/-- ASCII lowercasing of a byte string (`str.lower` / `bytes.lower`). -/
def lowerStr (s : BStr) : BStr :=
  s.map Char.toLower

/-- Value of a decimal digit character. -/
def decVal? (c : Char) : Option Nat :=
  if '0' ≤ c ∧ c ≤ '9' then some (c.toNat - 48) else none

/-- Value of a hexadecimal digit character (both cases accepted). -/
def hexVal? (c : Char) : Option Nat :=
  if '0' ≤ c ∧ c ≤ '9' then some (c.toNat - 48)
  else if 'a' ≤ c ∧ c ≤ 'f' then some (c.toNat - 87)
  else if 'A' ≤ c ∧ c ≤ 'F' then some (c.toNat - 55)
  else none

/-- Accumulate the value of a run of decimal digits; fails on the first
non-digit. -/
def parseDecDigits : BStr → Nat → Option Nat
  | [], acc => some acc
  | c :: rest, acc =>
    match decVal? c with
    | some d => parseDecDigits rest (10 * acc + d)
    | none => none

/-- Accumulate the value of a run of hexadecimal digits. -/
def parseHexDigits : BStr → Nat → Option Nat
  | [], acc => some acc
  | c :: rest, acc =>
    match hexVal? c with
    | some d => parseHexDigits rest (16 * acc + d)
    | none => none

/-- Magnitude part of Python `int(s)` (base 10, sign already removed);
`none` models a raised `ValueError`.  Digit-group underscores accepted by
CPython are not modelled; no input in this development contains one. -/
def pyIntCore (s : BStr) : Option Nat :=
  match s with
  | [] => none
  | _ => parseDecDigits s 0

/-- Removal of the optional `0x`/`0X` prefix accepted by `int(s, 16)`. -/
def stripHexPrefix (s : BStr) : BStr :=
  match s with
  | c1 :: c2 :: rest =>
    if c1 = '0' ∧ (c2 = 'x' ∨ c2 = 'X') then rest else c1 :: c2 :: rest
  | _ => s

/-- Magnitude part of Python `int(s, 16)`: an optional `0x`/`0X` prefix
followed by at least one hex digit. -/
def pyIntHexCore (s : BStr) : Option Nat :=
  let s2 := stripHexPrefix s
  if s2 = [] then none else parseHexDigits s2 0

/-- Python `int(s)` for base 10 with an optional sign. -/
def pyInt? (s : BStr) : Option Int :=
  match s with
  | [] => none
  | c :: rest =>
    if c = '-' then (pyIntCore rest).map (fun n => -(n : Int))
    else if c = '+' then (pyIntCore rest).map (fun n => (n : Int))
    else (pyIntCore (c :: rest)).map (fun n => (n : Int))

/-- Python `int(s, 16)` with an optional sign. -/
def pyIntHex? (s : BStr) : Option Int :=
  match s with
  | [] => none
  | c :: rest =>
    if c = '-' then (pyIntHexCore rest).map (fun n => -(n : Int))
    else if c = '+' then (pyIntHexCore rest).map (fun n => (n : Int))
    else (pyIntHexCore (c :: rest)).map (fun n => (n : Int))

/-- First-match lookup in an association list of byte strings (reading a
Python `dict` whose insertion discipline keeps keys unique). -/
def dictGet? (m : List (BStr × BStr)) (k : BStr) : Option BStr :=
  match m with
  | [] => none
  | p :: rest => if p.1 = k then some p.2 else dictGet? rest k

/-- Python `d[k] = v` on a `dict` modelled as an association list:
overwrite the existing entry or append a fresh one. -/
def dictInsert (m : List (BStr × BStr)) (k v : BStr) : List (BStr × BStr) :=
  if m.any (fun p => p.1 == k) then
    m.map (fun p => if p.1 = k then (k, v) else p)
  else m ++ [(k, v)]

/-- Concatenation of a list of byte strings. -/
def catAll : List BStr → BStr
  | [] => []
  | s :: rest => s ++ catAll rest

/-! ## Data model: `TimingBreakdown` (tracer.py lines 21-75) -/

/-- Shallow embedding of the `TimingBreakdown` dataclass.  Field names and
defaults follow the source; durations are exact rationals. -/
structure TimingBreakdown where
  dns_ms : ℚ := 0
  tcp_connect_ms : ℚ := 0
  tls_handshake_ms : ℚ := 0
  server_processing_ms : ℚ := 0
  content_transfer_ms : ℚ := 0
  total_ms : ℚ := 0
  url : BStr := []
  method : BStr := ("GET").data
  status_code : Int := 0
  response_size : Int := 0
  headers_sent : List (BStr × BStr) := []
  headers_received : List (BStr × BStr) := []
  ip_address : BStr := []
  tls_version : BStr := []
  response_body : BStr := []
  geo_info : BStr := []
  error : Option BStr := none
deriving DecidableEq

/-- Sum of the five phase durations (the `accounted` expression of
`TimingBreakdown.overhead_ms`, lines 48-54). -/
def phaseSum (t : TimingBreakdown) : ℚ :=
  t.dns_ms + t.tcp_connect_ms + t.tls_handshake_ms +
    t.server_processing_ms + t.content_transfer_ms

/-- The derived `overhead_ms` property (lines 45-55):
`max(0.0, total_ms - accounted)`. -/
def TimingBreakdown.overhead_ms (t : TimingBreakdown) : ℚ :=
  max 0 (t.total_ms - phaseSum t)

/-! ## Exceptions and `except` clauses (lines 265-274) -/

/-- Kinds of Python exception relevant to `trace_request`; each carries the
message text used when rendering (numeric formatting of the original
f-strings is abstracted to fixed text where the value does not matter). -/
inductive PyExn where
  | gaierror (msg : BStr)
  | connRefused
  | socketTimeout
  | sslError (msg : BStr)
  | valueError (msg : BStr)
  | generic (msg : BStr)
deriving DecidableEq

/-- The `except` ladder of `trace_request` (lines 265-274), mapping an
exception raised inside the `try:` to the `timing.error` string. -/
def renderError (e : PyExn) (host : BStr) (port : Nat) : BStr :=
  match e with
  | PyExn.gaierror m => ("DNS resolution failed: ").data ++ m
  | PyExn.connRefused =>
      ("Connection refused by ").data ++ host ++ (":").data ++ Nat.toDigits 10 port
  | PyExn.socketTimeout => ("Connection timed out").data
  | PyExn.sslError m => ("TLS error: ").data ++ m
  | PyExn.valueError m => ("Request failed: ").data ++ m
  | PyExn.generic m => ("Request failed: ").data ++ m

/-! ## The transfer-phase read loop (lines 166-200) -/

/-- One result of a blocking `sock.recv(4096)` call inside the read loop:
either a chunk of bytes (the empty chunk meaning the peer closed the
connection) or expiry of the 2-second secondary timeout. -/
inductive ReadEvent where
  | data (bs : BStr)
  | timedOut
deriving DecidableEq

/-- Why the read loop stopped.  `starved` is a model artefact: the supplied
event list ran out, which corresponds to a real `recv` that has not yet
returned (the code would still be blocked). -/
inductive StopReason where
  | complete
  | closedEnd
  | timedOut
  | exn (e : PyExn)
  | starved
deriving DecidableEq

/-- Outcome of the end-of-body check performed after each loop read. -/
inductive LoopDecision where
  | brk
  | cont
  | raise (e : PyExn)
deriving DecidableEq

/-- The lowered literal `b"content-length:"` used by the loop (line 188). -/
def clPrefixStr : BStr := ("content-length:").data

/-- The literal `b"transfer-encoding: chunked"` (line 194). -/
def teChunkedStr : BStr := ("transfer-encoding: chunked").data

/-- The chunked-body terminator literal `b"0\r\n\r\n"` (line 195). -/
def zeroMarker : BStr := ("0\r\n\r\n").data

/-- The header/body separator `b"\r\n\r\n"`. -/
def crlfcrlf : BStr := ("\r\n\r\n").data

/-- The inner `for line in header_text.split("\r\n"):` of lines 187-191:
scan the (lowered) header lines for a `content-length:` line.  Returns
`some .brk` if one declares a length already reached, `some (.raise _)` if
its value is not an integer (`int` raises `ValueError`), and `none` when
the `for` finishes without `break` (the `else:` clause runs). -/
def clScan : List BStr → Int → Option LoopDecision
  | [], _ => none
  | line :: rest, bodySoFar =>
    if bstrStartsWith clPrefixStr line then
      match pyInt? (stripWS (line.drop 15)) with
      | none => some (LoopDecision.raise
          (PyExn.valueError (("invalid literal for int").data)))
      | some expected =>
          if expected ≤ bodySoFar then some LoopDecision.brk
          else clScan rest bodySoFar
    else clScan rest bodySoFar

/-- The end-of-body check run after appending each loop read
(lines 180-198): locate the header/body boundary, try the content-length
rule, then the chunked-terminator rule, else keep reading. -/
def loopDecision (buf : BStr) : LoopDecision :=
  match findSeq crlfcrlf buf with
  | none => LoopDecision.cont
  | some pos =>
    let headerLower := lowerStr (buf.take pos)
    let bodySoFar : Int := (buf.length : Int) - (pos : Int) - 4
    match clScan (splitCRLF headerLower) bodySoFar with
    | some d => d
    | none =>
      if containsSeq headerLower teChunkedStr then
        if bstrEndsWith zeroMarker buf then LoopDecision.brk else LoopDecision.cont
      else LoopDecision.cont

/-- The `while True:` read loop of lines 174-200.  `buf` is the bytes
accumulated so far (the first chunk was read before the loop, line 161);
`events` supplies the successive outcomes of `sock.recv`.  Returns the
final buffer, the number of `recv` calls consumed, and why it stopped. -/
def transferLoop : BStr → List ReadEvent → BStr × Nat × StopReason
  | buf, [] => (buf, 0, StopReason.starved)
  | buf, ev :: rest =>
    match ev with
    | ReadEvent.timedOut => (buf, 1, StopReason.timedOut)
    | ReadEvent.data bs =>
      if bs = [] then (buf, 1, StopReason.closedEnd)
      else
        let buf2 := buf ++ bs
        match loopDecision buf2 with
        | LoopDecision.brk => (buf2, 1, StopReason.complete)
        | LoopDecision.raise e => (buf2, 1, StopReason.exn e)
        | LoopDecision.cont =>
          let r := transferLoop buf2 rest
          (r.1, r.2.1 + 1, r.2.2)

/-! ## Chunked size computation (`_parse_chunked_size`, lines 285-306) -/

/-- The `while i < len(parts)` loop of `_parse_chunked_size`: a hex
chunk-size line adds its declared value and skips the following data line;
a non-hex line adds its raw length; a declared size of zero stops. -/
def chunkGo : List BStr → Int → Int
  | [], total => total
  | p :: rest, total =>
    let line := stripWS p
    if line = [] then chunkGo rest total
    else
      match pyIntHex? line with
      | some cs =>
        if cs = 0 then total
        else
          match rest with
          | [] => total + cs
          | _ :: rest2 => chunkGo rest2 (total + cs)
      | none => chunkGo rest (total + (p.length : Int))

/-- `_parse_chunked_size(data)`: split on `b"\r\n"` and accumulate the
declared chunk sizes (the enclosing `except Exception` of the source is
unreachable in this model and is omitted). -/
def parseChunkedSize (data : BStr) : Int :=
  chunkGo (splitCRLF data) 0

/-- Hex digit characters as produced by a well-formed chunked encoder
(lowercase, as in `"%x"`). -/
def hexDigitChar (m : Nat) : Char :=
  if m < 10 then Char.ofNat (48 + m) else Char.ofNat (87 + m)

/-- Little-endian hex digits of `n`, with explicit fuel so that the
definition is structurally recursive (and hence kernel-reducible). -/
def hexRevF : Nat → Nat → BStr
  | 0, n => [hexDigitChar (n % 16)]
  | fuel + 1, n =>
    if n < 16 then [hexDigitChar n]
    else hexDigitChar (n % 16) :: hexRevF fuel (n / 16)

/-- Little-endian hex digits of `n` (at least one digit). -/
def hexRev (n : Nat) : BStr :=
  hexRevF n n

/-- Usual hex rendering of `n`. -/
def hexStr (n : Nat) : BStr :=
  (hexRev n).reverse

/-- Wire format of a chunked body: each chunk is
`hex-size CRLF data CRLF`, and the body ends with the zero-size
terminating chunk `0 CRLF CRLF`.  This encodes the well-formedness
hypothesis of the chunked-framing claims. -/
def encodeChunks : List (Nat × BStr) → BStr
  | [] => ("0\r\n\r\n").data
  | c :: cs => hexStr c.1 ++ ("\r\n").data ++ c.2 ++ ("\r\n").data ++ encodeChunks cs

/-- Byte strings containing no CRLF pair (chunk payloads must satisfy this
for the split-based parser of the source to see one data line per chunk). -/
def noCRLFin : BStr → Bool
  | [] => true
  | [_] => true
  | c1 :: c2 :: rest =>
    if c1 = '\r' ∧ c2 = '\n' then false else noCRLFin (c2 :: rest)

/-! ## URL parsing (lines 97-103, outside the `try:` block) -/

/-- Components produced by `urllib.parse.urlparse`, modelled for the URL
shapes the tracer handles: `scheme://netloc/path?query` and scheme-less
relative references (fragments and IPv6 bracket syntax are not modelled;
no input here uses them). -/
structure UrlParts where
  scheme : BStr
  netloc : BStr
  path : BStr
  query : BStr
deriving DecidableEq

/-- Restricted model of `urlparse`. -/
def pyUrlparse (url : BStr) : UrlParts :=
  match findSeq (("://").data) url with
  | some i =>
    let scheme := lowerStr (url.take i)
    let rest := url.drop (i + 3)
    let netloc := rest.takeWhile (fun c => !(c == '/' || c == '?'))
    let afterNet := rest.drop netloc.length
    match findSeq (("?").data) afterNet with
    | some q =>
        { scheme := scheme, netloc := netloc,
          path := afterNet.take q, query := afterNet.drop (q + 1) }
    | none => { scheme := scheme, netloc := netloc, path := afterNet, query := [] }
  | none =>
    match findSeq (("?").data) url with
    | some q => { scheme := [], netloc := [], path := url.take q, query := url.drop (q + 1) }
    | none => { scheme := [], netloc := [], path := url, query := [] }

/-- The `parsed.port` property: everything after the host colon must be a
decimal number in range, else `ValueError` is raised — note that this
happens on line 100, BEFORE the `try:` of `trace_request` begins. -/
def parsePort (portStr : BStr) : Except PyExn (Option Nat) :=
  if portStr = [] then Except.ok none
  else
    match pyIntCore portStr with
    | none => Except.error (PyExn.valueError
        (("Port could not be cast to integer value").data))
    | some n =>
      if n ≤ 65535 then Except.ok (some n)
      else Except.error (PyExn.valueError
        (("Port out of range 0-65535").data))

/-- Data computed by lines 97-103 before the `try:`: scheme, lowercased
hostname, effective port (`parsed.port or (443 if is_https else 80)` —
note a parsed port of 0 is falsy and also falls back to the default),
and the request path. -/
structure PreReq where
  scheme : BStr
  host : BStr
  port : Nat
  path : BStr
  isHttps : Bool
deriving DecidableEq

/-- Lines 97-103 of `trace_request`.  A `ValueError` from `parsed.port`
escapes as `Except.error` because those lines precede the `try:`. -/
def parsePre (url : BStr) : Except PyExn PreReq :=
  let p := pyUrlparse url
  let isHttps := p.scheme = ("https").data
  let hostPort := (p.netloc.reverse.takeWhile (fun c => !(c == '@'))).reverse
  let hostStr := hostPort.takeWhile (fun c => !(c == ':'))
  let portStr := (hostPort.drop hostStr.length).drop 1
  match parsePort portStr with
  | Except.error e => Except.error e
  | Except.ok port? =>
    let port := match port? with
      | some (n + 1) => n + 1
      | _ => if isHttps then 443 else 80
    let path0 := if p.path = [] then ("/").data else p.path
    let path := if p.query = [] then path0 else path0 ++ ('?' :: p.query)
    Except.ok { scheme := p.scheme, host := lowerStr hostStr, port := port,
                path := path, isHttps := isHttps }

/-! ## The network oracle and one hop of `trace_request` (lines 114-246) -/

/-- Behaviour of the network for one requested URL: for every transport
phase, either the measured duration on success or the exception raised.
`firstChunk` is what the pre-loop `sock.recv(4096)` of line 161 returns;
`events` feeds the transfer loop. -/
structure Hop where
  dnsMs : ℚ := 0
  dns : Except PyExn (Option BStr) := Except.ok (some (("0.0.0.0").data))
  tcpMs : ℚ := 0
  tcp : Option PyExn := none
  tlsMs : ℚ := 0
  tls : Option PyExn := none
  tlsVersion : BStr := []
  procMs : ℚ := 0
  send : Option PyExn := none
  firstChunk : BStr := []
  events : List ReadEvent := []
  transferMs : ℚ := 0

/-- The response-parsing section (lines 205-237).  It sits in an inner
`try: ... except Exception: pass`, and the only raising operation is
`int(status_parts[1])`; a failure there abandons the rest of the section
but keeps the fields already assigned (notably `response_size`). -/
def parseResponse (t : TimingBreakdown) (buf : BStr) : TimingBreakdown :=
  match findSeq crlfcrlf buf with
  | none => t
  | some pos =>
    let headerSection := buf.take pos
    let bodySection := buf.drop (pos + 4)
    let t1 := { t with response_size := (bodySection.length : Int) }
    match splitCRLF headerSection with
    | [] => t1
    | l0 :: restLines =>
      let statusParts := splitCharMax ' ' 2 l0
      let statusStep : Option TimingBreakdown :=
        match statusParts with
        | _ :: p1 :: _ =>
          match pyInt? p1 with
          | none => none
          | some c => some { t1 with status_code := c }
        | _ => some t1
      match statusStep with
      | none => t1
      | some t2 =>
        let resp := restLines.foldl (fun m line =>
          match splitFirstSeq ((": ").data) line with
          | none => m
          | some (k, v) => dictInsert m (lowerStr k) v) []
        let t3 := { t2 with headers_received := resp }
        let t4 :=
          if lowerStr ((dictGet? resp (("transfer-encoding").data)).getD []) =
              ("chunked").data then
            { t3 with response_size := parseChunkedSize bodySection }
          else t3
        { t4 with response_body := bodySection.take 4000 }

/-- One execution of the body of the `try:` up to line 246 (everything
except redirect handling).  `Except.error (t, e)` means the statement
raised `e` with the timing record mutated to `t` so far; `none` means the
model ran out of read events (the real code would still be blocked in
`recv`). -/
def runHop (hop : Hop) (pre : PreReq) (url method : BStr)
    (hdrs : List (BStr × BStr)) : Option (Except (TimingBreakdown × PyExn) TimingBreakdown) :=
  let t0 : TimingBreakdown :=
    { url := url, method := method.map Char.toUpper, headers_sent := hdrs }
  match hop.dns with
  | Except.error e => some (Except.error (t0, e))
  | Except.ok addr =>
    let t1 := { t0 with dns_ms := hop.dnsMs }
    match addr with
    | none => some (Except.ok
        { t1 with error := some ((("DNS resolution failed for ").data) ++ pre.host) })
    | some ip =>
      let t2 := { t1 with ip_address := ip }
      match hop.tcp with
      | some e => some (Except.error (t2, e))
      | none =>
        let t3 := { t2 with tcp_connect_ms := hop.tcpMs }
        let tlsStep : Except (TimingBreakdown × PyExn) TimingBreakdown :=
          if pre.isHttps then
            match hop.tls with
            | some e => Except.error (t3, e)
            | none => Except.ok { t3 with tls_handshake_ms := hop.tlsMs,
                                          tls_version := hop.tlsVersion }
          else Except.ok t3
        match tlsStep with
        | Except.error te => some (Except.error te)
        | Except.ok t4 =>
          match hop.send with
          | some e => some (Except.error (t4, e))
          | none =>
            let t5 := { t4 with server_processing_ms := hop.procMs }
            let lr := transferLoop hop.firstChunk hop.events
            match lr.2.2 with
            | StopReason.starved => none
            | StopReason.exn e => some (Except.error (t5, e))
            | _ =>
              let t6 := { t5 with content_transfer_ms := hop.transferMs }
              let t7 := parseResponse t6 lr.1
              some (Except.ok { t7 with total_ms :=
                t7.dns_ms + t7.tcp_connect_ms + t7.tls_handshake_ms +
                  t7.server_processing_ms + t7.content_transfer_ms })

/-- The redirect status codes of line 249. -/
def redirectCodes : List Int := [301, 302, 303, 307, 308]

/-- The `location` header key (line 250). -/
def locationKey : BStr := ("location").data

/-- Resolution of the `location` header (lines 252-253): only locations
beginning with `/` are rebased onto the original scheme and hostname. -/
def resolveLocation (pre : PreReq) (loc : BStr) : BStr :=
  if bstrStartsWith (("/").data) loc then
    pre.scheme ++ ("://").data ++ pre.host ++ loc
  else loc

/-- Combination of the redirect hop timings (lines 257-262): keep the
original resolution/connect/handshake costs, add the original total, and
restore the originally requested URL. -/
def foldRedirect (rt t : TimingBreakdown) (url : BStr) : TimingBreakdown :=
  { rt with
    dns_ms := rt.dns_ms + t.dns_ms,
    tcp_connect_ms := rt.tcp_connect_ms + t.tcp_connect_ms,
    tls_handshake_ms := rt.tls_handshake_ms + t.tls_handshake_ms,
    total_ms := rt.total_ms + t.total_ms,
    url := url }

/-- `trace_request` (lines 78-282), recursing on the redirect budget.
`env` gives the network behaviour for each URL the tracer may contact.
The overall result is `some (Except.ok _)` for a normal return,
`some (Except.error _)` when an exception escapes (possible only from the
pre-`try:` URL parsing, lines 97-103), and `none` when the model has no
further read events for a hop (the real code would still be blocked). -/
def traceRequest (env : BStr → Hop) (method : BStr) (hdrs : List (BStr × BStr))
    (body : Option BStr) (timeout : ℚ) (follow : Bool) :
    Nat → BStr → Option (Except PyExn TimingBreakdown)
  | maxRed, url =>
    match parsePre url with
    | Except.error e => some (Except.error e)
    | Except.ok pre =>
      match runHop (env url) pre url method hdrs with
      | none => none
      | some (Except.error (t, e)) =>
          some (Except.ok { t with error := some (renderError e pre.host pre.port) })
      | some (Except.ok t) =>
        match maxRed with
        | 0 => some (Except.ok t)
        | m + 1 =>
          if follow ∧ t.status_code ∈ redirectCodes then
            let loc := (dictGet? t.headers_received locationKey).getD []
            if loc = [] then some (Except.ok t)
            else
              match traceRequest env method hdrs body timeout follow m
                  (resolveLocation pre loc) with
              | none => none
              | some (Except.error e) =>
                  some (Except.ok
                    { t with error := some (renderError e pre.host pre.port) })
              | some (Except.ok rt) => some (Except.ok (foldRedirect rt t url))
          else some (Except.ok t)

/-! ## Concurrent runner (`trace_concurrent`, lines 325-348) -/

/-- The submitted task list `[(url, i) for url in urls for i in range(count_per_url)]`
(line 340). -/
def tbTasks : List BStr → Nat → List (BStr × Nat)
  | [], _ => []
  | u :: rest, k => ((List.range k).map (fun i => (u, i))) ++ tbTasks rest k

/-- The initial result dict `{url: [] for url in urls}` (line 335). -/
def emptyResults (urls : List BStr) : List (BStr × List TimingBreakdown) :=
  urls.map (fun u => (u, []))

/-- `results[url].append(result)` (line 346). -/
def appendResult (m : List (BStr × List TimingBreakdown)) (u : BStr)
    (r : TimingBreakdown) : List (BStr × List TimingBreakdown) :=
  m.map (fun p => if p.1 = u then (p.1, p.2 ++ [r]) else p)

/-- First-match lookup in the result dict. -/
def assocGet : List (BStr × List TimingBreakdown) → BStr → Option (List TimingBreakdown)
  | [], _ => none
  | p :: rest, u => if p.1 = u then some p.2 else assocGet rest u

/-- `trace_concurrent`: the `as_completed` loop appends each finished
task's record under its URL.  `probe` abstracts the outcome of the
`trace_request` call performed by each submitted task, and `order` is the
sequence in which `as_completed` delivers the futures — the claims require
it to be a permutation of the submitted task list. -/
def traceConcurrent (urls : List BStr) (probe : BStr × Nat → TimingBreakdown)
    (order : List (BStr × Nat)) : List (BStr × List TimingBreakdown) :=
  order.foldl (fun m tk => appendResult m tk.1 (probe tk)) (emptyResults urls)

/-! ## Averager (`average_timing`, lines 351-371) -/

/-- `average_timing`: arithmetic mean of the numeric phase fields and the
total; identity fields from the first record, response size from the last;
an empty input yields a default record. -/
def averageTiming (results : List TimingBreakdown) : TimingBreakdown :=
  match results with
  | [] => {}
  | r0 :: rest =>
    let n : ℚ := ((r0 :: rest).length : ℚ)
    { url := r0.url,
      method := r0.method,
      status_code := r0.status_code,
      dns_ms := ((r0 :: rest).map TimingBreakdown.dns_ms).sum / n,
      tcp_connect_ms := ((r0 :: rest).map TimingBreakdown.tcp_connect_ms).sum / n,
      tls_handshake_ms := ((r0 :: rest).map TimingBreakdown.tls_handshake_ms).sum / n,
      server_processing_ms := ((r0 :: rest).map TimingBreakdown.server_processing_ms).sum / n,
      content_transfer_ms := ((r0 :: rest).map TimingBreakdown.content_transfer_ms).sum / n,
      total_ms := ((r0 :: rest).map TimingBreakdown.total_ms).sum / n,
      response_size := (List.getLastD rest r0).response_size,
      ip_address := r0.ip_address,
      tls_version := r0.tls_version }

/-! ## Derived predicates and concrete scenario data -/

/-- The header lines declare exactly one `content-length:` and its value
parses to `n` (hypothesis under which the content-length framing rule of
the read loop is characterised). -/
def uniqueCL (lines : List BStr) (n : Nat) : Prop :=
  (lines.filter (fun l => bstrStartsWith clPrefixStr l)).map
      (fun l => pyInt? (stripWS (l.drop 15))) = [some (n : Int)]

/-- Whether the first hop of `trace_request` for `url` takes the redirect
branch of lines 249-263 (computable projection of the model, used to state
"the probe did not follow a redirect"). -/
def hopRedirected (env : BStr → Hop) (method : BStr) (hdrs : List (BStr × BStr))
    (follow : Bool) (maxRed : Nat) (url : BStr) : Bool :=
  match parsePre url with
  | Except.error _ => false
  | Except.ok pre =>
    match runHop (env url) pre url method hdrs with
    | some (Except.ok t) =>
        follow && redirectCodes.contains t.status_code && decide (0 < maxRed) &&
          !((dictGet? t.headers_received locationKey).getD []).isEmpty
    | _ => false

/-- Extract the record of a normal `trace_request` return (default record
otherwise); used to name concrete runs in witnesses. -/
def tbOf (r : Option (Except PyExn TimingBreakdown)) : TimingBreakdown :=
  match r with
  | some (Except.ok t) => t
  | _ => {}

/-- Extract the record of a successful hop (default record otherwise). -/
def hopOkOf (r : Option (Except (TimingBreakdown × PyExn) TimingBreakdown)) :
    TimingBreakdown :=
  match r with
  | some (Except.ok t) => t
  | _ => {}

/-- Extract parsed request data (dummy value otherwise). -/
def preOf (r : Except PyExn PreReq) : PreReq :=
  match r with
  | Except.ok p => p
  | Except.error _ => { scheme := [], host := [], port := 0, path := [], isHttps := false }

def methodGET : BStr := ("GET").data

/-- Network for the redirect-folding scenario: probing `http://a/` answers
301 with location `http://b/` after 1 ms of resolution work; probing
`http://b/` answers 200 with 5 ms of server processing. -/
def hopA : Hop :=
  { dnsMs := 1, dns := Except.ok (some (("1.1.1.1").data)),
    firstChunk := ("HTTP/1.1 301 Moved\r\nlocation: http://b/\r\ncontent-length: 0\r\n\r\n").data,
    events := [ReadEvent.timedOut] }

def hopB : Hop :=
  { dns := Except.ok (some (("2.2.2.2").data)), procMs := 5,
    firstChunk := ("HTTP/1.1 200 OK\r\ncontent-length: 2\r\n\r\n").data,
    events := [ReadEvent.data (("ok").data)] }

def urlA : BStr := ("http://a/").data

def urlB : BStr := ("http://b/").data

def envC1 : BStr → Hop := fun u =>
  if u = urlA then hopA else if u = urlB then hopB else {}

def preA : PreReq := preOf (parsePre urlA)

def tA : TimingBreakdown := hopOkOf (runHop (envC1 urlA) preA urlA methodGET [])

def rtB : TimingBreakdown := tbOf (traceRequest envC1 methodGET [] none 30 true 0 urlB)

def preB : PreReq := preOf (parsePre urlB)

def tB : TimingBreakdown := hopOkOf (runHop (envC1 urlB) preB urlB methodGET [])

/-- Network for the relative-location scenario: `http://a/x` answers 301
with the slash-less relative location `foo`; probing the string `foo`
itself resolves to 9.9.9.9, while the properly resolved URL
`http://a/foo` would resolve to 7.7.7.7. -/
def hopA2 : Hop :=
  { dns := Except.ok (some (("1.1.1.1").data)),
    firstChunk := ("HTTP/1.1 301 Moved\r\nlocation: foo\r\ncontent-length: 0\r\n\r\n").data,
    events := [ReadEvent.timedOut] }

def hopFoo : Hop :=
  { dns := Except.ok (some (("9.9.9.9").data)),
    firstChunk := ("HTTP/1.1 200 OK\r\ncontent-length: 0\r\n\r\n").data,
    events := [ReadEvent.timedOut] }

def hopResolved : Hop :=
  { dns := Except.ok (some (("7.7.7.7").data)),
    firstChunk := ("HTTP/1.1 200 OK\r\ncontent-length: 0\r\n\r\n").data,
    events := [ReadEvent.timedOut] }

def urlA2 : BStr := ("http://a/x").data

def envC8 : BStr → Hop := fun u =>
  if u = urlA2 then hopA2
  else if u = ("foo").data then hopFoo
  else if u = ("http://a/foo").data then hopResolved
  else {}

def preA2 : PreReq := preOf (parsePre urlA2)

def tA2 : TimingBreakdown := hopOkOf (runHop (envC8 urlA2) preA2 urlA2 methodGET [])

/-- Network for the failing-probe scenario: connecting to `http://w/` is
refused after 2 ms of resolution work. -/
def hopW : Hop :=
  { dnsMs := 2, dns := Except.ok (some (("5.5.5.5").data)), tcp := some PyExn.connRefused }

def urlW : BStr := ("http://w/").data

def envC10 : BStr → Hop := fun u => if u = urlW then hopW else {}

def rC10 : TimingBreakdown := tbOf (traceRequest envC10 methodGET [] none 30 true 10 urlW)

/-- Network oracle that is never successfully consulted (for inputs whose
pre-`try:` URL parsing already raises). -/
def envNone : BStr → Hop := fun _ => {}

/-- Concrete data for the content-length framing scenario. -/
def hdrC3 : BStr := ("HTTP/1.1 200 OK\r\ncontent-length: 5").data

def bodyC3 : BStr := ("hello").data

/-- A complete content-length response delivered entirely by the pre-loop
read of line 161. -/
def respC3 : BStr := ("HTTP/1.1 200 OK\r\ncontent-length: 3\r\n\r\nabc").data

/-- Concrete data for the chunked framing scenario. -/
def hdrC4 : BStr := ("HTTP/1.1 200 OK\r\ntransfer-encoding: chunked").data

def csC4 : List (Nat × BStr) := [(3, ("abc").data), (1, ("z").data)]

/-- Concrete data for the concurrent-runner scenario. -/
def urlsW : List BStr := [("wa").data, ("wb").data]

def probeW : BStr × Nat → TimingBreakdown := fun _ => {}

def orderW : List (BStr × Nat) := (tbTasks urlsW 2).reverse

/-- Concrete record for the averaging scenario. -/
def tbW : TimingBreakdown :=
  { dns_ms := 3, tcp_connect_ms := 5, total_ms := 8,
    url := ("http://x/").data, status_code := 200, response_size := 7,
    ip_address := ("3.3.3.3").data }

/-! ## Basic facts about the byte-string primitives -/

lemma bsw_length {p s : BStr} (h : bstrStartsWith p s = true) : p.length ≤ s.length := by
  induction p generalizing s with
  | nil => simp
  | cons a p ih =>
    cases s with
    | nil => simp [bstrStartsWith] at h
    | cons c cs =>
      simp only [bstrStartsWith, Bool.and_eq_true, beq_iff_eq] at h
      simpa using Nat.succ_le_succ (ih h.2)

lemma bsw_self (p : BStr) : bstrStartsWith p p = true := by
  induction p with
  | nil => rfl
  | cons a p ih => simp [bstrStartsWith, ih]

lemma bsw_append_right {p s : BStr} (t : BStr) (h : bstrStartsWith p s = true) :
    bstrStartsWith p (s ++ t) = true := by
  induction p generalizing s with
  | nil => rfl
  | cons a p ih =>
    cases s with
    | nil => simp [bstrStartsWith] at h
    | cons c cs =>
      simp only [bstrStartsWith, Bool.and_eq_true, beq_iff_eq] at h ⊢
      exact ⟨h.1, ih h.2⟩

lemma bsw_prefix (p t : BStr) : bstrStartsWith p (p ++ t) = true :=
  bsw_append_right t (bsw_self p)

lemma bsw_of_append {p s t : BStr} (h : bstrStartsWith p (s ++ t) = true)
    (hl : p.length ≤ s.length) : bstrStartsWith p s = true := by
  induction p generalizing s with
  | nil => rfl
  | cons a p ih =>
    cases s with
    | nil => simp at hl
    | cons c cs =>
      simp only [List.cons_append, bstrStartsWith, Bool.and_eq_true, beq_iff_eq] at h ⊢
      exact ⟨h.1, ih h.2 (by simpa using hl)⟩

lemma findSeq_some {pat s : BStr} {i : Nat} (h : findSeq pat s = some i) :
    bstrStartsWith pat (s.drop i) = true := by
  induction s generalizing i with
  | nil =>
    by_cases hp : pat = [] <;> simp [findSeq, hp] at h
    subst hp; subst h; rfl
  | cons c rest ih =>
    rw [findSeq] at h
    by_cases hs : bstrStartsWith pat (c :: rest) = true
    · rw [if_pos hs] at h
      cases h; simpa using hs
    · rw [if_neg hs] at h
      cases hfr : findSeq pat rest with
      | none => rw [hfr] at h; simp at h
      | some j =>
        rw [hfr] at h
        replace h : some (j + 1) = some i := h
        cases h
        simpa using ih hfr

lemma findSeq_min {pat s : BStr} {i : Nat} (h : findSeq pat s = some i) :
    ∀ j, j < i → bstrStartsWith pat (s.drop j) = false := by
  induction s generalizing i with
  | nil =>
    by_cases hp : pat = [] <;> simp [findSeq, hp] at h
    subst hp; subst h; omega
  | cons c rest ih =>
    rw [findSeq] at h
    by_cases hs : bstrStartsWith pat (c :: rest) = true
    · rw [if_pos hs] at h; cases h; omega
    · rw [if_neg hs] at h
      cases hfr : findSeq pat rest with
      | none => rw [hfr] at h; simp at h
      | some k =>
        rw [hfr] at h
        replace h : some (k + 1) = some i := h
        cases h
        intro j hj
        cases j with
        | zero => simpa using hs
        | succ j => simpa using ih hfr j (by omega)

lemma findSeq_none {pat s : BStr} (h : findSeq pat s = none) :
    ∀ j, bstrStartsWith pat (s.drop j) = false := by
  induction s with
  | nil =>
    intro j
    by_cases hp : pat = [] <;> simp [findSeq, hp] at h ⊢
    cases pat with
    | nil => simp at hp
    | cons a q => rfl
  | cons c rest ih =>
    rw [findSeq] at h
    by_cases hs : bstrStartsWith pat (c :: rest) = true
    · rw [if_pos hs] at h; simp at h
    · rw [if_neg hs] at h
      intro j
      cases j with
      | zero => simpa using hs
      | succ j =>
        cases hfr : findSeq pat rest with
        | none => exact ih (by simp [hfr] at h ⊢) j
        | some k => rw [hfr] at h; simp at h

lemma findSeq_of {pat s : BStr} {i : Nat}
    (h1 : bstrStartsWith pat (s.drop i) = true)
    (h2 : ∀ j, j < i → bstrStartsWith pat (s.drop j) = false) :
    findSeq pat s = some i := by
  induction s generalizing i with
  | nil =>
    have hp : pat = [] := by
      cases pat with
      | nil => rfl
      | cons a q => simp [List.drop_nil] at h1; exact absurd h1 (by simp [bstrStartsWith])
    subst hp
    have : i = 0 := by
      by_contra hne
      have := h2 0 (by omega)
      simp [bstrStartsWith] at this
    subst this; rfl
  | cons c rest ih =>
    cases i with
    | zero =>
      rw [findSeq, if_pos (by simpa using h1)]
    | succ i =>
      have h0 : bstrStartsWith pat (c :: rest) = false := by simpa using h2 0 (by omega)
      rw [findSeq, if_neg (by simp [h0])]
      have := ih (i := i) (by simpa using h1)
        (fun j hj => by simpa using h2 (j + 1) (by omega))
      simp [this]

lemma crlfcrlf_length : crlfcrlf.length = 4 := rfl

lemma buffer_decompose {hdr tail p x : BStr}
    (hsplit : p ++ x = hdr ++ crlfcrlf ++ tail)
    (hlong : hdr.length + 4 ≤ p.length) :
    ∃ t2, p = hdr ++ crlfcrlf ++ t2 := by
  rcases List.append_eq_append_iff.mp hsplit with ⟨a, ha1, _⟩ | ⟨c, hc1, _⟩
  · have hlen : hdr.length + 4 = p.length + a.length := by
      have := congrArg List.length ha1
      simp [crlfcrlf_length] at this
      omega
    have ha : a = [] := by
      have : a.length = 0 := by omega
      simpa [List.length_eq_zero] using this
    subst ha
    exact ⟨[], by simpa using ha1.symm⟩
  · exact ⟨c, hc1⟩

lemma no_early_occurrence {hdr tail : BStr}
    (hfind : findSeq crlfcrlf (hdr ++ crlfcrlf) = some hdr.length)
    {p x : BStr} (hsplit : p ++ x = hdr ++ crlfcrlf ++ tail)
    {j : Nat} (hj : j < hdr.length) (hjp : j + 4 ≤ p.length) :
    bstrStartsWith crlfcrlf (p.drop j) = false := by
  rw [Bool.eq_false_iff]
  intro hb2
  have h1 : bstrStartsWith crlfcrlf ((p ++ x).drop j) = true := by
    have hdj : (p ++ x).drop j = p.drop j ++ x := by
      rw [List.drop_append_eq_append_drop]
      have hz : j - p.length = 0 := by omega
      rw [hz]
      simp
    rw [hdj]
    exact bsw_append_right x hb2
  have h2 : (hdr ++ crlfcrlf ++ tail).drop j = (hdr ++ crlfcrlf).drop j ++ tail := by
    rw [List.drop_append_eq_append_drop]
    have hz : j - (hdr ++ crlfcrlf).length = 0 := by
      simp [crlfcrlf_length]
      omega
    rw [hz]
    simp
  rw [hsplit, h2] at h1
  have h3 : bstrStartsWith crlfcrlf ((hdr ++ crlfcrlf).drop j) = true := by
    apply bsw_of_append h1
    have : ((hdr ++ crlfcrlf).drop j).length = hdr.length + 4 - j := by
      simp [crlfcrlf_length]
    rw [crlfcrlf_length, this]
    omega
  have h4 := findSeq_min hfind j hj
  rw [h4] at h3
  simp at h3

lemma findSeq_window {hdr tail : BStr}
    (hfind : findSeq crlfcrlf (hdr ++ crlfcrlf) = some hdr.length)
    {p x : BStr} (hsplit : p ++ x = hdr ++ crlfcrlf ++ tail) :
    (p.length < hdr.length + 4 → findSeq crlfcrlf p = none) ∧
    (hdr.length + 4 ≤ p.length → findSeq crlfcrlf p = some hdr.length) := by
  constructor
  · intro hshort
    cases hfp : findSeq crlfcrlf p with
    | none => rfl
    | some i =>
      exfalso
      have hocc := findSeq_some hfp
      have hlenle := bsw_length hocc
      rw [crlfcrlf_length, List.length_drop] at hlenle
      have hi4 : i + 4 ≤ p.length := by omega
      have hj : i < hdr.length := by omega
      have := no_early_occurrence hfind hsplit hj hi4
      rw [this] at hocc
      simp at hocc
  · intro hlong
    obtain ⟨t2, hp⟩ := buffer_decompose hsplit hlong
    apply findSeq_of
    · rw [hp, List.append_assoc, List.drop_left]
      exact bsw_prefix crlfcrlf t2
    · intro j hj
      exact no_early_occurrence hfind hsplit hj (by omega)

lemma clScan_of_noCL {lines : List BStr}
    (h : lines.filter (fun l => bstrStartsWith clPrefixStr l) = []) (b : Int) :
    clScan lines b = none := by
  induction lines with
  | nil => rfl
  | cons l rest ih =>
    rw [List.filter_cons] at h
    by_cases hl : bstrStartsWith clPrefixStr l = true
    · simp [hl] at h
    · simp only [clScan]
      rw [if_neg hl]
      exact ih (by simpa [hl] using h)

lemma clScan_of_uniqueCL {lines : List BStr} {n : Nat}
    (h : uniqueCL lines n) (b : Int) :
    clScan lines b = if (n : Int) ≤ b then some LoopDecision.brk else none := by
  induction lines with
  | nil => simp [uniqueCL] at h
  | cons l rest ih =>
    rw [uniqueCL, List.filter_cons] at h
    by_cases hl : bstrStartsWith clPrefixStr l = true
    · rw [if_pos hl] at h
      rw [List.map_cons] at h
      have hv : pyInt? (stripWS (l.drop 15)) = some (n : Int) := by
        have := List.head_eq_of_cons_eq h
        simpa using this
      have hrest : (rest.filter fun l => bstrStartsWith clPrefixStr l) = [] := by
        have := List.tail_eq_of_cons_eq h
        simpa using this
      simp only [clScan]
      rw [if_pos hl, hv]
      by_cases hb : (n : Int) ≤ b
      · simp [hb]
      · simp [hb, clScan_of_noCL hrest b]
    · rw [if_neg hl] at h
      simp only [clScan]
      rw [if_neg hl]
      rw [ih (by rw [uniqueCL]; exact h)]

lemma loopDecision_short {hdr tail : BStr}
    (hfind : findSeq crlfcrlf (hdr ++ crlfcrlf) = some hdr.length)
    {p x : BStr} (hsplit : p ++ x = hdr ++ crlfcrlf ++ tail)
    (hshort : p.length < hdr.length + 4) :
    loopDecision p = LoopDecision.cont := by
  unfold loopDecision
  rw [(findSeq_window hfind hsplit).1 hshort]

lemma loopDecision_long {hdr tail : BStr}
    (hfind : findSeq crlfcrlf (hdr ++ crlfcrlf) = some hdr.length)
    {p x : BStr} (hsplit : p ++ x = hdr ++ crlfcrlf ++ tail)
    (hlong : hdr.length + 4 ≤ p.length) :
    loopDecision p =
      (match clScan (splitCRLF (lowerStr hdr)) ((p.length : Int) - (hdr.length : Int) - 4) with
       | some d => d
       | none =>
         if containsSeq (lowerStr hdr) teChunkedStr then
           (if bstrEndsWith zeroMarker p then LoopDecision.brk else LoopDecision.cont)
         else LoopDecision.cont) := by
  unfold loopDecision
  rw [(findSeq_window hfind hsplit).2 hlong]
  obtain ⟨t2, hp⟩ := buffer_decompose hsplit hlong
  have htake : p.take hdr.length = hdr := by
    rw [hp, List.append_assoc, List.take_left]
  simp only [htake]

lemma transferLoop_cl_run {hdr body0 : BStr} {n : Nat}
    (hfind : findSeq crlfcrlf (hdr ++ crlfcrlf) = some hdr.length)
    (hcl : uniqueCL (splitCRLF (lowerStr hdr)) n)
    (hnck : containsSeq (lowerStr hdr) teChunkedStr = false)
    (hlen : body0.length = n) :
    ∀ rs r0, r0 ++ catAll rs = hdr ++ crlfcrlf ++ body0 →
      (∀ r ∈ rs, r ≠ []) → rs ≠ [] → r0.length < hdr.length + 4 + n →
      transferLoop r0 (rs.map ReadEvent.data) =
        (hdr ++ crlfcrlf ++ body0, rs.length, StopReason.complete) := by
  intro rs
  have hRlen : (hdr ++ crlfcrlf ++ body0).length = hdr.length + 4 + n := by
    simp [crlfcrlf_length, hlen]
    omega
  induction rs with
  | nil => intro r0 _ _ hne _; exact absurd rfl hne
  | cons r rs ih =>
    intro r0 hsplit hall _ _
    have hrne : r ≠ [] := hall r (by simp)
    simp only [List.map_cons, transferLoop]
    rw [if_neg hrne]
    have hsplit2 : (r0 ++ r) ++ catAll rs = hdr ++ crlfcrlf ++ body0 := by
      simpa [catAll, List.append_assoc] using hsplit
    cases rs with
    | nil =>
      have hbuf : r0 ++ r = hdr ++ crlfcrlf ++ body0 := by
        simpa [catAll] using hsplit2
      have hlong : hdr.length + 4 ≤ (r0 ++ r).length := by
        rw [hbuf, hRlen]
        omega
      have hdec : loopDecision (r0 ++ r) = LoopDecision.brk := by
        rw [loopDecision_long hfind (x := catAll ([] : List BStr)) hsplit2 hlong]
        have hbs : (((r0 ++ r).length : Int) - (hdr.length : Int) - 4) = (n : Int) := by
          rw [hbuf, hRlen]
          push_cast
          omega
        rw [hbs, clScan_of_uniqueCL hcl]
        simp
      rw [hdec, hbuf]
      rfl
    | cons s ss =>
      have hslen : 0 < (catAll (s :: ss)).length := by
        have hsne : s ≠ [] := hall s (by simp)
        cases s with
        | nil => exact absurd rfl hsne
        | cons a as => simp [catAll]
      have hproper : (r0 ++ r).length < hdr.length + 4 + n := by
        have := congrArg List.length hsplit2
        rw [hRlen] at this
        simp only [List.length_append] at this ⊢
        omega
      have hdec : loopDecision (r0 ++ r) = LoopDecision.cont := by
        by_cases hc : (r0 ++ r).length < hdr.length + 4
        · exact loopDecision_short hfind hsplit2 hc
        · rw [loopDecision_long hfind hsplit2 (by omega)]
          rw [clScan_of_uniqueCL hcl]
          have hnle : ¬ ((n : Int) ≤ ((r0 ++ r).length : Int) - (hdr.length : Int) - 4) := by
            omega
          rw [if_neg hnle]
          simp [hnck]
      rw [hdec]
      rw [ih (r0 ++ r) hsplit2 (fun y hy => hall y (by simp [hy])) (by simp) hproper]
      rfl

lemma transferLoop_chunk_safety {hdr body0 : BStr}
    (hfind : findSeq crlfcrlf (hdr ++ crlfcrlf) = some hdr.length)
    (hnoCL : (splitCRLF (lowerStr hdr)).filter
        (fun l => bstrStartsWith clPrefixStr l) = []) :
    ∀ rs r0 b m, r0 ++ catAll rs = hdr ++ crlfcrlf ++ body0 →
      transferLoop r0 (rs.map ReadEvent.data) = (b, m, StopReason.complete) →
      bstrEndsWith zeroMarker b = true := by
  intro rs
  induction rs with
  | nil =>
    intro r0 b m _ hrun
    simp [transferLoop] at hrun
  | cons r rs ih =>
    intro r0 b m hsplit hrun
    simp only [List.map_cons, transferLoop] at hrun
    have hsplit2 : (r0 ++ r) ++ catAll rs = hdr ++ crlfcrlf ++ body0 := by
      simpa [catAll, List.append_assoc] using hsplit
    by_cases hr : r = []
    · rw [if_pos hr] at hrun
      simp at hrun
    · rw [if_neg hr] at hrun
      cases hdec : loopDecision (r0 ++ r) with
      | brk =>
        rw [hdec] at hrun
        simp only [Prod.mk.injEq] at hrun
        obtain ⟨hb, _, _⟩ := hrun
        subst hb
        by_cases hc : (r0 ++ r).length < hdr.length + 4
        · rw [loopDecision_short hfind hsplit2 hc] at hdec
          simp at hdec
        · rw [loopDecision_long hfind hsplit2 (by omega)] at hdec
          rw [clScan_of_noCL hnoCL] at hdec
          by_cases h1 : containsSeq (lowerStr hdr) teChunkedStr = true
          · rw [if_pos h1] at hdec
            by_cases h2 : bstrEndsWith zeroMarker (r0 ++ r) = true
            · exact h2
            · rw [if_neg h2] at hdec
              simp at hdec
          · rw [if_neg h1] at hdec
            simp at hdec
      | raise e =>
        rw [hdec] at hrun
        simp at hrun
      | cont =>
        rw [hdec] at hrun
        cases hq : transferLoop (r0 ++ r) (rs.map ReadEvent.data) with
        | mk b2 q2 =>
          cases q2 with
          | mk m2 reason2 =>
            rw [hq] at hrun
            simp only [Prod.mk.injEq] at hrun
            obtain ⟨hb, _, hreason⟩ := hrun
            rw [← hb]
            exact ih (r0 ++ r) b2 m2 hsplit2 (by rw [hq, hreason])

lemma hexDigitChar_facts :
    ∀ m, m < 16 → (hexVal? (hexDigitChar m) = some m ∧ hexDigitChar m ≠ '\r' ∧
      hexDigitChar m ≠ '\n' ∧ isPyWS (hexDigitChar m) = false ∧ hexDigitChar m ≠ '-' ∧
      hexDigitChar m ≠ '+' ∧ (hexDigitChar m = '0' ↔ m = 0)) := by
  decide

lemma hexRevF_fuel_irrel :
    ∀ n fuel1 fuel2, n ≤ fuel1 → n ≤ fuel2 → hexRevF fuel1 n = hexRevF fuel2 n := by
  intro n
  induction n using Nat.strong_induction_on with
  | _ n ih =>
    intro fuel1 fuel2 h1 h2
    cases fuel1 with
    | zero =>
      cases fuel2 with
      | zero => rfl
      | succ f2 =>
        have hn : n = 0 := by omega
        subst hn
        rfl
    | succ f1 =>
      cases fuel2 with
      | zero =>
        have hn : n = 0 := by omega
        subst hn
        rfl
      | succ f2 =>
        simp only [hexRevF]
        by_cases h16 : n < 16
        · rw [if_pos h16, if_pos h16]
        · rw [if_neg h16, if_neg h16]
          have hdiv : n / 16 < n := Nat.div_lt_self (by omega) (by omega)
          rw [ih (n / 16) hdiv f1 f2 (by omega) (by omega)]

lemma hexRev_unfold (n : Nat) :
    hexRev n = if n < 16 then [hexDigitChar n]
      else hexDigitChar (n % 16) :: hexRev (n / 16) := by
  cases n with
  | zero => rfl
  | succ m =>
    rw [hexRev]
    simp only [hexRevF]
    by_cases h16 : m + 1 < 16
    · rw [if_pos h16, if_pos h16]
    · rw [if_neg h16, if_neg h16, hexRev]
      have hdiv : (m + 1) / 16 < m + 1 := Nat.div_lt_self (by omega) (by omega)
      rw [hexRevF_fuel_irrel ((m + 1) / 16) m ((m + 1) / 16) (by omega) (by omega)]

lemma hexRev_ne_nil (n : Nat) : hexRev n ≠ [] := by
  rw [hexRev_unfold]
  by_cases h : n < 16 <;> simp [h]

lemma hexRev_digits : ∀ n, ∀ c ∈ hexRev n, ∃ m, m < 16 ∧ c = hexDigitChar m := by
  intro n
  induction n using Nat.strong_induction_on with
  | _ n ih =>
    intro c hc
    rw [hexRev_unfold] at hc
    by_cases h : n < 16
    · rw [if_pos h] at hc
      simp at hc
      exact ⟨n, h, hc⟩
    · rw [if_neg h] at hc
      rcases List.mem_cons.mp hc with hc1 | hc2
      · exact ⟨n % 16, Nat.mod_lt n (by omega), hc1⟩
      · exact ih (n / 16) (Nat.div_lt_self (by omega) (by omega)) c hc2

lemma hexRev_getLast_ne_zero :
    ∀ n, n ≠ 0 → (hexRev n).getLast? ≠ some '0' := by
  intro n
  induction n using Nat.strong_induction_on with
  | _ n ih =>
    intro hn
    rw [hexRev_unfold]
    by_cases h : n < 16
    · rw [if_pos h]
      simp
      exact fun hz => hn (((hexDigitChar_facts n h).2.2.2.2.2.2).mp hz)
    · rw [if_neg h]
      obtain ⟨d, ds, hds⟩ := List.exists_cons_of_ne_nil (hexRev_ne_nil (n / 16))
      rw [hds, List.getLast?_cons_cons, ← hds]
      exact ih (n / 16) (Nat.div_lt_self (by omega) (by omega)) (by omega)

lemma parseHexDigits_append (s t : BStr) (acc : Nat) :
    parseHexDigits (s ++ t) acc =
      (match parseHexDigits s acc with
       | some a => parseHexDigits t a
       | none => none) := by
  induction s generalizing acc with
  | nil => rfl
  | cons c cs ih =>
    simp only [List.cons_append, parseHexDigits]
    cases hexVal? c with
    | none => rfl
    | some d => exact ih (16 * acc + d)

lemma parseHexDigits_hexRev (n : Nat) :
    ∀ acc, parseHexDigits (hexRev n).reverse acc =
      some (acc * 16 ^ (hexRev n).length + n) := by
  induction n using Nat.strong_induction_on with
  | _ n ih =>
    intro acc
    rw [hexRev_unfold]
    by_cases h : n < 16
    · rw [if_pos h]
      simp only [List.reverse_singleton, List.length_singleton, parseHexDigits,
        (hexDigitChar_facts n h).1]
      simp [pow_one, Nat.mul_comm]
    · rw [if_neg h]
      rw [List.reverse_cons, parseHexDigits_append]
      rw [ih (n / 16) (Nat.div_lt_self (by omega) (by omega)) acc]
      have hm : n % 16 < 16 := Nat.mod_lt n (by omega)
      simp only [parseHexDigits, (hexDigitChar_facts (n % 16) hm).1]
      have : 16 * (acc * 16 ^ (hexRev (n / 16)).length + n / 16) + n % 16 =
          acc * 16 ^ ((hexRev (n / 16)).length + 1) + n := by
        rw [pow_succ]
        have := Nat.div_add_mod n 16
        ring_nf
        omega
      rw [this]
      simp [List.length_cons]

lemma hexStr_ne_nil (n : Nat) : hexStr n ≠ [] := by
  simp [hexStr, hexRev_ne_nil n]

lemma hexStr_digits {n : Nat} {c : Char} (hc : c ∈ hexStr n) :
    ∃ m, m < 16 ∧ c = hexDigitChar m := by
  rw [hexStr, List.mem_reverse] at hc
  exact hexRev_digits n c hc

lemma dropWhile_all_false {p : Char → Bool} {s : BStr}
    (h : ∀ c ∈ s, p c = false) : s.dropWhile p = s := by
  cases s with
  | nil => rfl
  | cons c cs => simp [List.dropWhile_cons, h c (by simp)]

lemma stripWS_of_no_ws {s : BStr} (h : ∀ c ∈ s, isPyWS c = false) :
    stripWS s = s := by
  rw [stripWS, dropWhile_all_false h,
    dropWhile_all_false (fun c hc => h c (List.mem_reverse.mp hc)), List.reverse_reverse]

lemma stripWS_hexStr (n : Nat) : stripWS (hexStr n) = hexStr n := by
  apply stripWS_of_no_ws
  intro c hc
  obtain ⟨m, hm, rfl⟩ := hexStr_digits hc
  exact (hexDigitChar_facts m hm).2.2.2.1

lemma hexStr_length_ge_two {n : Nat} {c c2 : Char} {cs : BStr}
    (hs : hexStr n = c :: c2 :: cs) : ¬ n < 16 := by
  intro h16
  rw [hexStr, hexRev_unfold, if_pos h16] at hs
  simp at hs

lemma hexStr_head_getLast {n : Nat} {c : Char} {cs : BStr}
    (hs : hexStr n = c :: cs) : (hexRev n).getLast? = some c := by
  have : (hexRev n).reverse.head? = some c := by
    rw [← hexStr, hs]
    rfl
  rwa [List.head?_reverse] at this

lemma stripHexPrefix_hexStr (n : Nat) : stripHexPrefix (hexStr n) = hexStr n := by
  cases hs : hexStr n with
  | nil => rfl
  | cons c cs =>
    cases cs with
    | nil => rfl
    | cons c2 cs2 =>
      have h16 : ¬ n < 16 := hexStr_length_ge_two hs
      have hn0 : n ≠ 0 := by omega
      have hc0 : c ≠ '0' := by
        intro hc
        exact hexRev_getLast_ne_zero n hn0 (by rw [hexStr_head_getLast hs, hc])
      rw [stripHexPrefix]
      rw [if_neg (by tauto)]

lemma pyIntHexCore_hexStr (n : Nat) : pyIntHexCore (hexStr n) = some n := by
  rw [pyIntHexCore]
  simp only [stripHexPrefix_hexStr]
  rw [if_neg (hexStr_ne_nil n)]
  have := parseHexDigits_hexRev n 0
  simpa [hexStr] using this

lemma pyIntHex?_hexStr (n : Nat) : pyIntHex? (hexStr n) = some (n : Int) := by
  cases hs : hexStr n with
  | nil => exact absurd hs (hexStr_ne_nil n)
  | cons c cs =>
    have hcd : ∃ m, m < 16 ∧ c = hexDigitChar m := hexStr_digits (by rw [hs]; simp)
    obtain ⟨m, hm, rfl⟩ := hcd
    have hminus : hexDigitChar m ≠ '-' := (hexDigitChar_facts m hm).2.2.2.2.1
    have hplus : hexDigitChar m ≠ '+' := (hexDigitChar_facts m hm).2.2.2.2.2.1
    rw [pyIntHex?]
    rw [if_neg hminus, if_neg hplus, ← hs, pyIntHexCore_hexStr]
    rfl

lemma noCRLFin_of_no_cr : ∀ {s : BStr}, (∀ c ∈ s, c ≠ '\r') → noCRLFin s = true := by
  intro s
  induction s with
  | nil => intro _; rfl
  | cons c tail ih =>
    intro h
    cases tail with
    | nil => rfl
    | cons c2 t2 =>
      simp only [noCRLFin]
      rw [if_neg (by intro hc; exact h c (by simp) hc.1)]
      exact ih (fun x hx => h x (by simp [hx]))

lemma noCRLFin_hexStr (n : Nat) : noCRLFin (hexStr n) = true := by
  apply noCRLFin_of_no_cr
  intro c hc
  obtain ⟨m, hm, rfl⟩ := hexStr_digits hc
  exact (hexDigitChar_facts m hm).2.1

lemma splitCRLF_of_append {rest : BStr} :
    ∀ a : BStr, noCRLFin a = true →
      splitCRLF (a ++ '\r' :: '\n' :: rest) = a :: splitCRLF rest := by
  intro a
  induction a with
  | nil =>
    intro _
    simp only [List.nil_append, splitCRLF]
    simp
  | cons c tail ih =>
    intro ha
    cases tail with
    | nil =>
      simp only [List.cons_append, List.nil_append, splitCRLF]
      rw [if_neg (by simp)]
      simp
    | cons c2 a2 =>
      have hcond : ¬ (c = '\r' ∧ c2 = '\n') := by
        intro hc
        rw [noCRLFin, if_pos hc] at ha
        simp at ha
      have ha2 : noCRLFin (c2 :: a2) = true := by
        rw [noCRLFin, if_neg hcond] at ha
        exact ha
      have goalstep : splitCRLF (c :: c2 :: (a2 ++ '\r' :: '\n' :: rest)) =
          (c :: c2 :: a2) :: splitCRLF rest := by
        simp only [splitCRLF]
        rw [if_neg hcond]
        have := ih ha2
        simp only [List.cons_append] at this
        rw [this]
      simpa [List.cons_append] using goalstep

lemma chunkGo_encode :
    ∀ cs : List (Nat × BStr), (∀ c ∈ cs, 0 < c.1) → (∀ c ∈ cs, noCRLFin c.2 = true) →
      ∀ acc : Int,
        chunkGo (splitCRLF (encodeChunks cs)) acc = acc + ((cs.map Prod.fst).sum : Int) := by
  intro cs
  induction cs with
  | nil =>
    intro _ _ acc
    have h : splitCRLF (encodeChunks []) = [[('0')], [], []] := by rfl
    rw [h]
    have h2 : chunkGo [[('0')], [], []] acc = acc := by rfl
    rw [h2]
    simp
  | cons hd cs ih =>
    obtain ⟨sz, d⟩ := hd
    intro h1 h2 acc
    have hd1 : 0 < sz := h1 (sz, d) (by simp)
    have hd2 : noCRLFin d = true := h2 (sz, d) (by simp)
    have henc : encodeChunks ((sz, d) :: cs) =
        hexStr sz ++ '\r' :: '\n' :: (d ++ '\r' :: '\n' :: encodeChunks cs) := by
      simp only [encodeChunks]
      simp [List.append_assoc]
    rw [henc, splitCRLF_of_append _ (noCRLFin_hexStr sz), splitCRLF_of_append _ hd2]
    simp only [chunkGo, stripWS_hexStr, pyIntHex?_hexStr]
    rw [if_neg (hexStr_ne_nil sz)]
    have hsz : ¬ ((sz : Int) = 0) := by omega
    rw [if_neg hsz]
    rw [ih (fun x hx => h1 x (by simp [hx])) (fun x hx => h2 x (by simp [hx])) (acc + sz)]
    simp [List.map_cons, List.sum_cons]
    ring

lemma parseResponse_shape (t : TimingBreakdown) (buf : BStr) :
    ∃ a b c d, parseResponse t buf =
      { t with response_size := a, status_code := b, headers_received := c,
               response_body := d } := by
  unfold parseResponse
  cases hf : findSeq crlfcrlf buf with
  | none => exact ⟨_, _, _, _, rfl⟩
  | some pos =>
    dsimp only
    cases hsp : splitCRLF (List.take pos buf) with
    | nil => exact ⟨_, _, _, _, rfl⟩
    | cons l0 restLines =>
      dsimp only
      cases hst : splitCharMax ' ' 2 l0 with
      | nil => dsimp only; split <;> exact ⟨_, _, _, _, rfl⟩
      | cons q0 qrest =>
        cases qrest with
        | nil => dsimp only; split <;> exact ⟨_, _, _, _, rfl⟩
        | cons p1 prest =>
          dsimp only
          cases hpi : pyInt? p1 with
          | none => dsimp only; exact ⟨_, _, _, _, rfl⟩
          | some c => dsimp only; split <;> exact ⟨_, _, _, _, rfl⟩

@[simp] lemma parseResponse_dns (t : TimingBreakdown) (buf : BStr) :
    (parseResponse t buf).dns_ms = t.dns_ms := by
  obtain ⟨a, b, c, d, h⟩ := parseResponse_shape t buf
  rw [h]

@[simp] lemma parseResponse_tcp (t : TimingBreakdown) (buf : BStr) :
    (parseResponse t buf).tcp_connect_ms = t.tcp_connect_ms := by
  obtain ⟨a, b, c, d, h⟩ := parseResponse_shape t buf
  rw [h]

@[simp] lemma parseResponse_tls (t : TimingBreakdown) (buf : BStr) :
    (parseResponse t buf).tls_handshake_ms = t.tls_handshake_ms := by
  obtain ⟨a, b, c, d, h⟩ := parseResponse_shape t buf
  rw [h]

@[simp] lemma parseResponse_proc (t : TimingBreakdown) (buf : BStr) :
    (parseResponse t buf).server_processing_ms = t.server_processing_ms := by
  obtain ⟨a, b, c, d, h⟩ := parseResponse_shape t buf
  rw [h]

@[simp] lemma parseResponse_transfer (t : TimingBreakdown) (buf : BStr) :
    (parseResponse t buf).content_transfer_ms = t.content_transfer_ms := by
  obtain ⟨a, b, c, d, h⟩ := parseResponse_shape t buf
  rw [h]

@[simp] lemma parseResponse_total (t : TimingBreakdown) (buf : BStr) :
    (parseResponse t buf).total_ms = t.total_ms := by
  obtain ⟨a, b, c, d, h⟩ := parseResponse_shape t buf
  rw [h]

@[simp] lemma parseResponse_error (t : TimingBreakdown) (buf : BStr) :
    (parseResponse t buf).error = t.error := by
  obtain ⟨a, b, c, d, h⟩ := parseResponse_shape t buf
  rw [h]

@[simp] lemma parseResponse_url (t : TimingBreakdown) (buf : BStr) :
    (parseResponse t buf).url = t.url := by
  obtain ⟨a, b, c, d, h⟩ := parseResponse_shape t buf
  rw [h]

@[simp] lemma parseResponse_method (t : TimingBreakdown) (buf : BStr) :
    (parseResponse t buf).method = t.method := by
  obtain ⟨a, b, c, d, h⟩ := parseResponse_shape t buf
  rw [h]

@[simp] lemma parseResponse_ip (t : TimingBreakdown) (buf : BStr) :
    (parseResponse t buf).ip_address = t.ip_address := by
  obtain ⟨a, b, c, d, h⟩ := parseResponse_shape t buf
  rw [h]

@[simp] lemma parseResponse_tlsv (t : TimingBreakdown) (buf : BStr) :
    (parseResponse t buf).tls_version = t.tls_version := by
  obtain ⟨a, b, c, d, h⟩ := parseResponse_shape t buf
  rw [h]

lemma runHop_ok_cases {hop : Hop} {pre : PreReq} {url method : BStr}
    {hdrs : List (BStr × BStr)} {t : TimingBreakdown} (h : runHop hop pre url method hdrs = some (Except.ok t)) :
    (t.error = none ∧ t.total_ms = phaseSum t) ∨
    (t.error.isSome = true ∧ t.total_ms = 0 ∧ t.status_code = 0 ∧
      phaseSum t = t.dns_ms) := by
  unfold runHop at h
  dsimp only at h
  cases hdns : hop.dns with
  | error e0 =>
    rw [hdns] at h
    simp at h
  | ok addr =>
    rw [hdns] at h
    dsimp only at h
    cases addr with
    | none =>
      simp only [Option.some.injEq, Except.ok.injEq] at h
      subst h
      right
      simp [phaseSum]
    | some ip =>
      dsimp only at h
      cases htcp : hop.tcp with
      | some e1 =>
        rw [htcp] at h
        simp at h
      | none =>
        rw [htcp] at h
        dsimp only at h
        by_cases hS : pre.isHttps = true
        · rw [if_pos hS] at h
          cases htls : hop.tls with
          | some e4 =>
            rw [htls] at h
            dsimp only at h
            simp at h
          | none =>
            rw [htls] at h
            dsimp only at h
            cases hsend : hop.send with
            | some e2 => rw [hsend] at h; simp at h
            | none =>
              rw [hsend] at h
              dsimp only at h
              cases hloop : (transferLoop hop.firstChunk hop.events).2.2 with
              | starved => rw [hloop] at h; simp at h
              | exn e3 => rw [hloop] at h; simp at h
              | complete =>
                rw [hloop] at h
                simp only [Option.some.injEq, Except.ok.injEq] at h
                subst h
                left
                constructor <;> simp [phaseSum]
              | closedEnd =>
                rw [hloop] at h
                simp only [Option.some.injEq, Except.ok.injEq] at h
                subst h
                left
                constructor <;> simp [phaseSum]
              | timedOut =>
                rw [hloop] at h
                simp only [Option.some.injEq, Except.ok.injEq] at h
                subst h
                left
                constructor <;> simp [phaseSum]
        · rw [if_neg hS] at h
          dsimp only at h
          cases hsend : hop.send with
          | some e2 => rw [hsend] at h; simp at h
          | none =>
            rw [hsend] at h
            dsimp only at h
            cases hloop : (transferLoop hop.firstChunk hop.events).2.2 with
            | starved => rw [hloop] at h; simp at h
            | exn e3 => rw [hloop] at h; simp at h
            | complete =>
              rw [hloop] at h
              simp only [Option.some.injEq, Except.ok.injEq] at h
              subst h
              left
              constructor <;> simp [phaseSum]
            | closedEnd =>
              rw [hloop] at h
              simp only [Option.some.injEq, Except.ok.injEq] at h
              subst h
              left
              constructor <;> simp [phaseSum]
            | timedOut =>
              rw [hloop] at h
              simp only [Option.some.injEq, Except.ok.injEq] at h
              subst h
              left
              constructor <;> simp [phaseSum]

lemma runHop_err_cases {hop : Hop} {pre : PreReq} {url method : BStr}
    {hdrs : List (BStr × BStr)} {t : TimingBreakdown} {e : PyExn}
    (h : runHop hop pre url method hdrs = some (Except.error (t, e))) :
    t.total_ms = 0 ∧ t.status_code = 0 ∧ t.error = none := by
  unfold runHop at h
  dsimp only at h
  cases hdns : hop.dns with
  | error e0 =>
    rw [hdns] at h
    simp only [Option.some.injEq, Except.error.injEq, Prod.mk.injEq] at h
    obtain ⟨rfl, rfl⟩ := h
    simp
  | ok addr =>
    rw [hdns] at h
    dsimp only at h
    cases addr with
    | none =>
      simp at h
    | some ip =>
      dsimp only at h
      cases htcp : hop.tcp with
      | some e1 =>
        rw [htcp] at h
        simp only [Option.some.injEq, Except.error.injEq, Prod.mk.injEq] at h
        obtain ⟨rfl, rfl⟩ := h
        simp
      | none =>
        rw [htcp] at h
        dsimp only at h
        by_cases hS : pre.isHttps = true
        · rw [if_pos hS] at h
          cases htls : hop.tls with
          | some e4 =>
            rw [htls] at h
            dsimp only at h
            simp only [Option.some.injEq, Except.error.injEq, Prod.mk.injEq] at h
            obtain ⟨rfl, rfl⟩ := h
            simp
          | none =>
            rw [htls] at h
            dsimp only at h
            cases hsend : hop.send with
            | some e2 =>
              rw [hsend] at h
              simp only [Option.some.injEq, Except.error.injEq, Prod.mk.injEq] at h
              obtain ⟨rfl, rfl⟩ := h
              simp
            | none =>
              rw [hsend] at h
              dsimp only at h
              cases hloop : (transferLoop hop.firstChunk hop.events).2.2 with
              | starved => rw [hloop] at h; simp at h
              | exn e3 =>
                rw [hloop] at h
                simp only [Option.some.injEq, Except.error.injEq, Prod.mk.injEq] at h
                obtain ⟨rfl, rfl⟩ := h
                simp
              | complete => rw [hloop] at h; simp at h
              | closedEnd => rw [hloop] at h; simp at h
              | timedOut => rw [hloop] at h; simp at h
        · rw [if_neg hS] at h
          dsimp only at h
          cases hsend : hop.send with
          | some e2 =>
            rw [hsend] at h
            simp only [Option.some.injEq, Except.error.injEq, Prod.mk.injEq] at h
            obtain ⟨rfl, rfl⟩ := h
            simp
          | none =>
            rw [hsend] at h
            dsimp only at h
            cases hloop : (transferLoop hop.firstChunk hop.events).2.2 with
            | starved => rw [hloop] at h; simp at h
            | exn e3 =>
              rw [hloop] at h
              simp only [Option.some.injEq, Except.error.injEq, Prod.mk.injEq] at h
              obtain ⟨rfl, rfl⟩ := h
              simp
            | complete => rw [hloop] at h; simp at h
            | closedEnd => rw [hloop] at h; simp at h
            | timedOut => rw [hloop] at h; simp at h

lemma traceRequest_redirect_step (env : BStr → Hop) (method : BStr)
    (hdrs : List (BStr × BStr)) (body : Option BStr) (timeout : ℚ) (m : Nat)
    (url : BStr) (pre : PreReq) (t : TimingBreakdown) (loc : BStr)
    (hpre : parsePre url = Except.ok pre)
    (hhop : runHop (env url) pre url method hdrs = some (Except.ok t))
    (hst : t.status_code ∈ redirectCodes)
    (hloc : dictGet? t.headers_received locationKey = some loc)
    (hlocne : loc ≠ []) :
    traceRequest env method hdrs body timeout true (m + 1) url =
      (match traceRequest env method hdrs body timeout true m
          (resolveLocation pre loc) with
       | none => none
       | some (Except.error e) =>
           some (Except.ok { t with error := some (renderError e pre.host pre.port) })
       | some (Except.ok rt) => some (Except.ok (foldRedirect rt t url))) := by
  conv_lhs => rw [traceRequest]
  rw [hpre]
  dsimp only
  rw [hhop]
  dsimp only
  rw [if_pos (by exact ⟨rfl, hst⟩)]
  rw [hloc]
  dsimp only [Option.getD]
  rw [if_neg hlocne]

lemma appendResult_keys (m : List (BStr × List TimingBreakdown)) (u : BStr)
    (r : TimingBreakdown) :
    (appendResult m u r).map Prod.fst = m.map Prod.fst := by
  induction m with
  | nil => rfl
  | cons p rest ih =>
    simp only [appendResult, List.map_cons] at ih ⊢
    by_cases h : p.1 = u <;> simp [h, ih]

lemma emptyResults_keys (urls : List BStr) :
    (emptyResults urls).map Prod.fst = urls := by
  rw [emptyResults, List.map_map]
  have h : (Prod.fst ∘ fun u : BStr => (u, ([] : List TimingBreakdown))) = id := rfl
  rw [h, List.map_id]

lemma foldl_append_keys (probe : BStr × Nat → TimingBreakdown) :
    ∀ (order : List (BStr × Nat)) (m : List (BStr × List TimingBreakdown)),
      ((order.foldl (fun m tk => appendResult m tk.1 (probe tk)) m).map Prod.fst) =
        m.map Prod.fst := by
  intro order
  induction order with
  | nil => intro m; rfl
  | cons tk rest ih =>
    intro m
    simp only [List.foldl_cons]
    rw [ih, appendResult_keys]

lemma assocGet_appendResult (m : List (BStr × List TimingBreakdown)) (u2 u : BStr)
    (r : TimingBreakdown) :
    assocGet (appendResult m u2 r) u =
      (assocGet m u).map (fun l => if u2 = u then l ++ [r] else l) := by
  induction m with
  | nil => rfl
  | cons p rest ih =>
    simp only [appendResult, List.map_cons] at ih ⊢
    by_cases h1 : p.1 = u2
    · by_cases h2 : p.1 = u
      · have h3 : u2 = u := by rw [← h1, h2]
        simp [assocGet, h1, h2, h3]
      · have h3 : ¬ (u2 = u) := by
          intro hc
          exact h2 (by rw [h1, hc])
        simp [assocGet, h1, h2, h3, ih]
    · by_cases h2 : p.1 = u
      · have h3 : ¬ (u2 = u) := by
          intro hc
          exact h1 (by rw [h2, hc])
        have h4 : ¬ (u = u2) := fun hc => h3 hc.symm
        simp [assocGet, h1, h2, h3, h4]
      · simp [assocGet, h1, h2, ih]

lemma assocGet_foldl (probe : BStr × Nat → TimingBreakdown) :
    ∀ (order : List (BStr × Nat)) (m : List (BStr × List TimingBreakdown)) (u : BStr),
      assocGet (order.foldl (fun m tk => appendResult m tk.1 (probe tk)) m) u =
        (assocGet m u).map
          (fun l => l ++ (order.filter (fun tk => tk.1 == u)).map probe) := by
  intro order
  induction order with
  | nil =>
    intro m u
    simp only [List.foldl_nil]
    cases assocGet m u <;> simp
  | cons tk rest ih =>
    intro m u
    simp only [List.foldl_cons]
    rw [ih, assocGet_appendResult]
    cases hmu : assocGet m u with
    | none => simp
    | some l =>
      by_cases h : tk.1 = u
      · simp [h, List.filter_cons, List.append_assoc]
      · simp [h, List.filter_cons]

lemma assocGet_empty (urls : List BStr) (u : BStr) (hu : u ∈ urls) :
    assocGet (emptyResults urls) u = some [] := by
  induction urls with
  | nil => simp at hu
  | cons v rest ih =>
    simp only [emptyResults, List.map_cons, assocGet]
    by_cases h : v = u
    · simp [h]
    · rw [if_neg h]
      exact ih (by rcases List.mem_cons.mp hu with h2 | h2; exact absurd h2.symm h; exact h2)

lemma tasks_filter_notmem (k : Nat) :
    ∀ urls : List BStr, ∀ u, u ∉ urls →
      (tbTasks urls k).filter (fun tk => tk.1 == u) = [] := by
  intro urls
  induction urls with
  | nil => intro u _; rfl
  | cons v rest ih =>
    intro u hu
    have hvu : ¬ (v = u) := fun hc => hu (by rw [hc]; simp)
    simp only [tbTasks, List.filter_append]
    rw [ih u (fun hc => hu (by simp [hc]))]
    simp [List.filter_map, Function.comp, hvu]

lemma tasks_filter_mem (k : Nat) :
    ∀ urls : List BStr, urls.Nodup → ∀ u ∈ urls,
      (tbTasks urls k).filter (fun tk => tk.1 == u) =
        (List.range k).map (fun i => (u, i)) := by
  intro urls
  induction urls with
  | nil => intro _ u hu; simp at hu
  | cons v rest ih =>
    intro hnd u hu
    have hnd2 : rest.Nodup := (List.nodup_cons.mp hnd).2
    have hvrest : v ∉ rest := (List.nodup_cons.mp hnd).1
    simp only [tbTasks, List.filter_append]
    by_cases h : v = u
    · subst h
      rw [tasks_filter_notmem k rest v hvrest]
      have hp : ((fun tk : BStr × Nat => tk.1 == v) ∘ fun i => (v, i)) =
          fun _ => true := by
        funext i
        simp
      simp [List.filter_map, hp]
    · have hurest : u ∈ rest := by
        rcases List.mem_cons.mp hu with h2 | h2
        · exact absurd h2.symm h
        · exact h2
      rw [ih hnd2 u hurest]
      simp [List.filter_map, Function.comp, h]

/-! ## Claim theorems -/

/-- C7 (confirmed): `average_timing` of a non-empty list returns the
arithmetic mean of the five phase durations and of the total, takes URL,
method, status code, peer address and TLS version from the first sample
and the response size from the last sample; the empty list yields the
default (zero-valued) breakdown rather than an error. -/
theorem claim_c7_averager :
    averageTiming [] = ({} : TimingBreakdown) ∧
    ∀ (t : TimingBreakdown) (rest : List TimingBreakdown),
      averageTiming (t :: rest) =
        { url := t.url,
          method := t.method,
          status_code := t.status_code,
          dns_ms := ((t :: rest).map TimingBreakdown.dns_ms).sum / ((t :: rest).length : ℚ),
          tcp_connect_ms :=
            ((t :: rest).map TimingBreakdown.tcp_connect_ms).sum / ((t :: rest).length : ℚ),
          tls_handshake_ms :=
            ((t :: rest).map TimingBreakdown.tls_handshake_ms).sum / ((t :: rest).length : ℚ),
          server_processing_ms :=
            ((t :: rest).map TimingBreakdown.server_processing_ms).sum / ((t :: rest).length : ℚ),
          content_transfer_ms :=
            ((t :: rest).map TimingBreakdown.content_transfer_ms).sum / ((t :: rest).length : ℚ),
          total_ms := ((t :: rest).map TimingBreakdown.total_ms).sum / ((t :: rest).length : ℚ),
          response_size := (List.getLastD rest t).response_size,
          ip_address := t.ip_address,
          tls_version := t.tls_version } := by
  exact ⟨rfl, fun t rest => rfl⟩

/-- C2 (code_bug): `trace_request` is claimed never to let an exception
escape, but `urlparse(url)` and `parsed.port` run on lines 97-100, BEFORE
the `try:` block that starts at line 114.  For a URL whose port component
is not numeric, `parsed.port` raises `ValueError` and the exception
escapes the function instead of being converted into an error-annotated
`TimingBreakdown`.  The model evaluates to an escaped exception at the
concrete failing input. -/
theorem claim_c2_exception_escape :
    traceRequest envNone methodGET [] none 30 true 10
        (("http://example.com:notaport/").data) =
      some (Except.error (PyExn.valueError
        (("Port could not be cast to integer value").data))) := by
  rfl

/-- C3 counterexample: a response whose declared content-length is already
fully satisfied by the initial pre-loop read (line 161).  The loop body
checks completion only after a further `sock.recv` (line 176), so even
though the buffer already passes the completion check (`loopDecision` is
`brk`), the loop consumes one more blocking read, which ends by the
2-second timeout rather than by the content-length rule — contradicting
"no additional blocking read afterwards". -/
theorem claim_c3_counterexample :
    loopDecision respC3 = LoopDecision.brk ∧
    transferLoop respC3 [ReadEvent.timedOut] = (respC3, 1, StopReason.timedOut) := by
  exact ⟨rfl, rfl⟩

/-- C3 (corrected): when at least one loop read is needed (the declared
length is not already satisfied by the initial read), the read loop
terminates exactly at the read with which the received body bytes reach
the declared content-length — no earlier and with no additional read —
whatever the distribution of bytes over reads, including extra body bytes
buffered together with the header section.  (When the initial read already
contains the complete response, one additional blocking read occurs; see
the counterexample.) -/
theorem claim_c3_amended
    (hdr body0 r0 : BStr) (rs : List BStr) (n : Nat)
    (hfind : findSeq crlfcrlf (hdr ++ crlfcrlf) = some hdr.length)
    (hcl : uniqueCL (splitCRLF (lowerStr hdr)) n)
    (hnck : containsSeq (lowerStr hdr) teChunkedStr = false)
    (hlen : body0.length = n)
    (hsplit : r0 ++ catAll rs = hdr ++ crlfcrlf ++ body0)
    (hall : ∀ r ∈ rs, r ≠ [])
    (hne : rs ≠ []) :
    transferLoop r0 (rs.map ReadEvent.data) =
      (hdr ++ crlfcrlf ++ body0, rs.length, StopReason.complete) := by
  have hshort : r0.length < hdr.length + 4 + n := by
    cases rs with
    | nil => exact absurd rfl hne
    | cons s ss =>
      have hsne : s ≠ [] := hall s (by simp)
      have hlen2 := congrArg List.length hsplit
      simp only [List.length_append, crlfcrlf_length, hlen] at hlen2
      have hs0 : 0 < (catAll (s :: ss)).length := by
        cases s with
        | nil => exact absurd rfl hsne
        | cons a as => simp [catAll]
      omega
  exact transferLoop_cl_run hfind hcl hnck hlen rs r0 hsplit hall hne hshort

/-- C3 witness: a 5-byte content-length body delivered over the initial
read plus two loop reads terminates exactly at the second loop read. -/
theorem claim_c3_amended_witness :
    transferLoop (hdrC3 ++ crlfcrlf ++ ("he").data)
        ([("ll").data, ("o").data].map ReadEvent.data) =
      (hdrC3 ++ crlfcrlf ++ bodyC3, 2, StopReason.complete) := by
  exact claim_c3_amended hdrC3 bodyC3 (hdrC3 ++ crlfcrlf ++ ("he").data)
    [("ll").data, ("o").data] 5 (by decide) (by unfold uniqueCL; decide) (by decide)
    (by decide) (by decide) (by decide) (by decide)

/-- C4 (confirmed): for a chunked response (header section declaring no
content-length) whose reads all deliver data, whenever the read loop stops
through the completion check, the accumulated buffer ends with the
zero-length terminating chunk marker `0\r\n\r\n` — it never reaches
completion before the terminator has been observed; and
`_parse_chunked_size` of a well-formed chunked body (positive chunk sizes,
no CRLF inside chunk payloads) equals the sum of the hex-declared chunk
lengths, independently of how the loop's reads were split, since the parse
runs on the final accumulated buffer. -/
theorem claim_c4_chunked
    (hdr body0 r0 b : BStr) (rs : List BStr) (m : Nat) (cs : List (Nat × BStr))
    (hfind : findSeq crlfcrlf (hdr ++ crlfcrlf) = some hdr.length)
    (hnoCL : (splitCRLF (lowerStr hdr)).filter
        (fun l => bstrStartsWith clPrefixStr l) = [])
    (hsplit : r0 ++ catAll rs = hdr ++ crlfcrlf ++ body0)
    (hstop : transferLoop r0 (rs.map ReadEvent.data) = (b, m, StopReason.complete))
    (hpos : ∀ c ∈ cs, 0 < c.1)
    (hncr : ∀ c ∈ cs, noCRLFin c.2 = true) :
    bstrEndsWith zeroMarker b = true ∧
    parseChunkedSize (encodeChunks cs) = ((cs.map Prod.fst).sum : Int) := by
  constructor
  · exact transferLoop_chunk_safety hfind hnoCL rs r0 b m hsplit hstop
  · rw [parseChunkedSize, chunkGo_encode cs hpos hncr 0]
    simp

/-- C4 witness: a two-chunk body (3 and 1 bytes) split mid-chunk across
two reads stops only at the terminator and reports size 3 + 1 = 4. -/
theorem claim_c4_chunked_witness :
    bstrEndsWith zeroMarker (hdrC4 ++ crlfcrlf ++ encodeChunks csC4) = true ∧
    parseChunkedSize (encodeChunks csC4) = 4 := by
  have h := claim_c4_chunked hdrC4 (encodeChunks csC4) (hdrC4 ++ crlfcrlf)
      (hdrC4 ++ crlfcrlf ++ encodeChunks csC4)
      [("3\r\nab").data, ("c\r\n1\r\nz\r\n0\r\n\r\n").data] 2 csC4
      (by decide) (by decide) (by decide) (by decide) (by decide) (by decide)
  exact ⟨h.1, by rw [h.2]; rfl⟩

/-- C1 counterexample: a redirect hop with 1 ms of resolution work and
total 1 ms, followed by a final hop with total 5 ms.  The code adds only
the original hop's total to the folded total (line 261): the result is
1 + 5 = 6 ms, while the claimed formula
(original resolution+connect+handshake+total) + (final total) gives
(1 + 0 + 0 + 1) + 5 = 7 ms, double-counting the connection phases that
are already part of the original hop's total. -/
theorem claim_c1_counterexample :
    (tbOf (traceRequest envC1 methodGET [] none 30 false 1 urlA)).dns_ms = 1 ∧
    (tbOf (traceRequest envC1 methodGET [] none 30 false 1 urlA)).tcp_connect_ms = 0 ∧
    (tbOf (traceRequest envC1 methodGET [] none 30 false 1 urlA)).tls_handshake_ms = 0 ∧
    (tbOf (traceRequest envC1 methodGET [] none 30 false 1 urlA)).total_ms = 1 ∧
    (tbOf (traceRequest envC1 methodGET [] none 30 true 0 urlB)).total_ms = 5 ∧
    (tbOf (traceRequest envC1 methodGET [] none 30 true 1 urlA)).total_ms = 6 ∧
    ((1 : ℚ) + 0 + 0 + 1 + 5 ≠ 6) := by
  refine ⟨rfl, rfl, rfl, ?_, ?_, ?_, by norm_num⟩
  · rw [show (tbOf (traceRequest envC1 methodGET [] none 30 false 1 urlA)).total_ms =
        1 + 0 + 0 + 0 + 0 from rfl]
    norm_num
  · rw [show (tbOf (traceRequest envC1 methodGET [] none 30 true 0 urlB)).total_ms =
        0 + 0 + 0 + 5 + 0 from rfl]
    norm_num
  · rw [show (tbOf (traceRequest envC1 methodGET [] none 30 true 1 urlA)).total_ms =
        (0 + 0 + 0 + 5 + 0) + (1 + 0 + 0 + 0 + 0) from rfl]
    norm_num

/-- C1 (corrected): when the first hop answers with a redirect status, a
non-empty location and remaining budget, the returned record is the final
hop's record with resolution/connect/handshake each incremented by the
original hop's corresponding durations, the total incremented by the
original hop's TOTAL (not by its total plus its connection phases), and
the URL restored to the originally requested URL; the original hop's total
itself equals the sum of its five phase durations. -/
theorem claim_c1_amended
    (env : BStr → Hop) (method : BStr) (hdrs : List (BStr × BStr))
    (body : Option BStr) (timeout : ℚ) (m : Nat) (url : BStr) (pre : PreReq)
    (t rt : TimingBreakdown) (loc : BStr)
    (hpre : parsePre url = Except.ok pre)
    (hhop : runHop (env url) pre url method hdrs = some (Except.ok t))
    (hst : t.status_code ∈ redirectCodes)
    (hloc : dictGet? t.headers_received locationKey = some loc)
    (hlocne : loc ≠ [])
    (hrec : traceRequest env method hdrs body timeout true m
        (resolveLocation pre loc) = some (Except.ok rt)) :
    traceRequest env method hdrs body timeout true (m + 1) url =
      some (Except.ok (foldRedirect rt t url)) ∧
    (foldRedirect rt t url).total_ms = rt.total_ms + t.total_ms ∧
    (foldRedirect rt t url).dns_ms = rt.dns_ms + t.dns_ms ∧
    (foldRedirect rt t url).tcp_connect_ms = rt.tcp_connect_ms + t.tcp_connect_ms ∧
    (foldRedirect rt t url).tls_handshake_ms = rt.tls_handshake_ms + t.tls_handshake_ms ∧
    (foldRedirect rt t url).url = url ∧
    t.total_ms = phaseSum t := by
  refine ⟨?_, rfl, rfl, rfl, rfl, rfl, ?_⟩
  · rw [traceRequest_redirect_step env method hdrs body timeout m url pre t loc
      hpre hhop hst hloc hlocne, hrec]
  · rcases runHop_ok_cases hhop with ⟨_, h2⟩ | ⟨_, _, h3, _⟩
    · exact h2
    · rw [h3] at hst
      simp [redirectCodes] at hst

/-- C1 witness: the folding equation evaluated on the concrete
two-hop network of the counterexample. -/
theorem claim_c1_amended_witness :
    traceRequest envC1 methodGET [] none 30 true 1 urlA =
      some (Except.ok (foldRedirect rtB tA urlA)) ∧
    (foldRedirect rtB tA urlA).total_ms = rtB.total_ms + tA.total_ms ∧
    tA.total_ms = phaseSum tA := by
  have h := claim_c1_amended envC1 methodGET [] none 30 0 urlA preA tA rtB
      (("http://b/").data) (by rfl) (by rfl) (by decide) (by rfl) (by decide) (by rfl)
  exact ⟨h.1, h.2.1, h.2.2.2.2.2.2⟩

/-- C6 (confirmed): a successful probe (no error) whose hop does not take
the redirect branch is returned unchanged, its total duration equals the
sum of the five phase durations exactly (the model uses exact arithmetic,
so the float tolerance of the claim collapses to equality), and therefore
its overhead is zero. -/
theorem claim_c6_total
    (env : BStr → Hop) (method : BStr) (hdrs : List (BStr × BStr))
    (body : Option BStr) (timeout : ℚ) (follow : Bool) (maxRed : Nat)
    (url : BStr) (pre : PreReq) (t : TimingBreakdown)
    (hpre : parsePre url = Except.ok pre)
    (hhop : runHop (env url) pre url method hdrs = some (Except.ok t))
    (herr : t.error = none)
    (hnf : ¬ (follow = true ∧ t.status_code ∈ redirectCodes ∧ 0 < maxRed ∧
      (dictGet? t.headers_received locationKey).getD [] ≠ [])) :
    traceRequest env method hdrs body timeout follow maxRed url =
      some (Except.ok t) ∧
    t.total_ms = phaseSum t ∧ t.overhead_ms = 0 := by
  have htot : t.total_ms = phaseSum t := by
    rcases runHop_ok_cases hhop with ⟨_, h2⟩ | ⟨h1, _, _, _⟩
    · exact h2
    · rw [herr] at h1
      simp at h1
  refine ⟨?_, htot, ?_⟩
  · cases maxRed with
    | zero =>
      rw [traceRequest, hpre]
      dsimp only
      rw [hhop]
    | succ mm =>
      rw [traceRequest, hpre]
      dsimp only
      rw [hhop]
      dsimp only
      by_cases hc : (follow = true ∧ t.status_code ∈ redirectCodes)
      · have hloce : (dictGet? t.headers_received locationKey).getD [] = [] := by
          by_contra hne2
          exact hnf ⟨hc.1, hc.2, by omega, hne2⟩
        rw [if_pos hc]
        rw [if_pos hloce]
      · rw [if_neg hc]
  · rw [TimingBreakdown.overhead_ms, htot]
    simp

/-- C6 witness: the successful 200 probe of `http://b/` on the concrete
network. -/
theorem claim_c6_total_witness :
    traceRequest envC1 methodGET [] none 30 true 1 urlB = some (Except.ok tB) ∧
    tB.total_ms = phaseSum tB ∧ tB.overhead_ms = 0 :=
  claim_c6_total envC1 methodGET [] none 30 true 1 urlB preB tB
    (by rfl) (by rfl) (by rfl) (by decide)

/-- C8 counterexample: a 301 whose location is the relative reference
`foo` (no leading slash).  The code rebases only locations starting with
`/` (line 252), so the follow-up probe targets the literal string `foo`
instead of `http://a/foo`: the returned peer address is the one the
network assigns to probing `foo` (9.9.9.9), not the one it assigns to the
scheme/host-resolved URL (7.7.7.7). -/
theorem claim_c8_counterexample :
    (tbOf (traceRequest envC8 methodGET [] none 30 true 1 urlA2)).ip_address =
      ("9.9.9.9").data ∧
    (tbOf (traceRequest envC8 methodGET [] none 30 true 0 (("foo").data))).ip_address =
      ("9.9.9.9").data ∧
    (tbOf (traceRequest envC8 methodGET [] none 30 true 0
        (("http://a/foo").data))).ip_address = ("7.7.7.7").data ∧
    (("9.9.9.9").data : BStr) ≠ ("7.7.7.7").data := by
  exact ⟨rfl, rfl, rfl, by decide⟩

/-- C8 (corrected): on a redirect with non-empty location and remaining
budget, the follow-up probe targets `resolveLocation`, which rebases the
location onto the original scheme and lowercased hostname exactly when the
location begins with `/`; any other location (including slash-less
relative references) is used verbatim as the next URL. -/
theorem claim_c8_amended
    (env : BStr → Hop) (method : BStr) (hdrs : List (BStr × BStr))
    (body : Option BStr) (timeout : ℚ) (m : Nat) (url : BStr) (pre : PreReq)
    (t : TimingBreakdown) (loc : BStr)
    (hpre : parsePre url = Except.ok pre)
    (hhop : runHop (env url) pre url method hdrs = some (Except.ok t))
    (hst : t.status_code ∈ redirectCodes)
    (hloc : dictGet? t.headers_received locationKey = some loc)
    (hlocne : loc ≠ []) :
    traceRequest env method hdrs body timeout true (m + 1) url =
      (match traceRequest env method hdrs body timeout true m
          (resolveLocation pre loc) with
       | none => none
       | some (Except.error e) =>
           some (Except.ok { t with error := some (renderError e pre.host pre.port) })
       | some (Except.ok rt) => some (Except.ok (foldRedirect rt t url))) ∧
    (bstrStartsWith (("/").data) loc = true →
      resolveLocation pre loc = pre.scheme ++ ("://").data ++ pre.host ++ loc) ∧
    (bstrStartsWith (("/").data) loc = false → resolveLocation pre loc = loc) := by
  refine ⟨traceRequest_redirect_step env method hdrs body timeout m url pre t loc
    hpre hhop hst hloc hlocne, ?_, ?_⟩
  · intro h
    rw [resolveLocation, if_pos h]
  · intro h
    rw [resolveLocation, if_neg (by simp [h])]

/-- C8 witness: on the concrete network, the slash-less location `foo` is
taken verbatim and the redirect step follows it. -/
theorem claim_c8_amended_witness :
    resolveLocation preA2 (("foo").data) = ("foo").data ∧
    traceRequest envC8 methodGET [] none 30 true 1 urlA2 =
      (match traceRequest envC8 methodGET [] none 30 true 0
          (resolveLocation preA2 (("foo").data)) with
       | none => none
       | some (Except.error e) =>
           some (Except.ok { tA2 with error := some (renderError e preA2.host preA2.port) })
       | some (Except.ok rt) => some (Except.ok (foldRedirect rt tA2 urlA2))) := by
  have h := claim_c8_amended envC8 methodGET [] none 30 0 urlA2 preA2 tA2
    (("foo").data) (by rfl) (by rfl) (by decide) (by rfl) (by decide)
  exact ⟨h.2.2 (by decide), h.1⟩

/-- C10 (confirmed): a probe returning an error-annotated record without
having taken the redirect branch has total duration exactly 0 (the total
is assigned only at line 240, which failure paths never reach), hence zero
overhead, and a total strictly below the phase sum whenever some phase
was measured (assuming, as the data model states, non-negative measured
durations). -/
theorem claim_c10_failed_total
    (env : BStr → Hop) (method : BStr) (hdrs : List (BStr × BStr))
    (body : Option BStr) (timeout : ℚ) (follow : Bool) (maxRed : Nat)
    (url : BStr) (r : TimingBreakdown) (msg : BStr)
    (hres : traceRequest env method hdrs body timeout follow maxRed url =
      some (Except.ok r))
    (herr : r.error = some msg)
    (hnored : hopRedirected env method hdrs follow maxRed url = false)
    (hpos : 0 ≤ phaseSum r) :
    r.total_ms = 0 ∧ r.overhead_ms = 0 ∧
    (0 < phaseSum r → r.total_ms < phaseSum r) := by
  have htot : r.total_ms = 0 := by
    rw [traceRequest] at hres
    unfold hopRedirected at hnored
    cases hp : parsePre url with
    | error e =>
      rw [hp] at hres
      exact absurd hres (by simp)
    | ok pre =>
      rw [hp] at hres hnored
      dsimp only at hres hnored
      cases hr : runHop (env url) pre url method hdrs with
      | none =>
        rw [hr] at hres
        exact absurd hres (by simp)
      | some res =>
        cases res with
        | error te =>
          obtain ⟨t0, e0⟩ := te
          rw [hr] at hres
          dsimp only at hres
          simp only [Option.some.injEq, Except.ok.injEq] at hres
          have h0 := runHop_err_cases hr
          rw [← hres]
          exact h0.1
        | ok t =>
          rw [hr] at hres hnored
          dsimp only at hres hnored
          have hok := runHop_ok_cases hr
          have hfin : r = t → r.total_ms = 0 := by
            intro hrt
            subst hrt
            rcases hok with ⟨h1, _⟩ | ⟨_, h2, _, _⟩
            · rw [herr] at h1
              simp at h1
            · exact h2
          cases maxRed with
          | zero =>
            simp only [Option.some.injEq, Except.ok.injEq] at hres
            exact hfin hres.symm
          | succ mm =>
            dsimp only at hres
            by_cases hc : (follow = true ∧ t.status_code ∈ redirectCodes)
            · have hloce : (dictGet? t.headers_received locationKey).getD [] = [] := by
                rw [hc.1] at hnored
                have hcont : redirectCodes.contains t.status_code = true := by
                  rw [List.contains_iff_exists_mem_beq]
                  exact ⟨t.status_code, hc.2, by simp⟩
                rw [hcont] at hnored
                simp at hnored
                exact hnored
              rw [if_pos hc] at hres
              rw [if_pos hloce] at hres
              simp only [Option.some.injEq, Except.ok.injEq] at hres
              exact hfin hres.symm
            · rw [if_neg hc] at hres
              simp only [Option.some.injEq, Except.ok.injEq] at hres
              exact hfin hres.symm
  refine ⟨htot, ?_, ?_⟩
  · rw [TimingBreakdown.overhead_ms, htot]
    have hle : 0 - phaseSum r ≤ 0 := by linarith
    simpa using max_eq_left hle
  · intro hlt
    rw [htot]
    exact hlt

/-- C10 witness: the connection-refused probe of `http://w/` (2 ms of
resolution measured, then failure) has total 0, overhead 0, and a total
strictly below its phase sum. -/
theorem claim_c10_failed_total_witness :
    rC10.total_ms = 0 ∧ rC10.overhead_ms = 0 ∧
    (0 < phaseSum rC10 → rC10.total_ms < phaseSum rC10) :=
  claim_c10_failed_total envC10 methodGET [] none 30 true 10 urlW rC10
    (("Connection refused by w:80").data) (by rfl) (by rfl) (by rfl)
    (by rw [show phaseSum rC10 = 2 + 0 + 0 + 0 + 0 from rfl]; norm_num)

/-- C5 (confirmed): for pairwise-distinct targets, any repetition count
and any completion order (a permutation of the submitted task list), the
runner returns a dict whose key list is exactly the target list and whose
entry for each target is the list — in completion order — of the records
produced by that target's tasks: exactly `k` of them, one per submitted
task, with failed probes present as records (the probe function is total)
rather than dropped. -/
theorem claim_c5_concurrent
    (urls : List BStr) (k : Nat) (probe : BStr × Nat → TimingBreakdown)
    (order : List (BStr × Nat))
    (hnd : urls.Nodup) (hperm : order.Perm (tbTasks urls k)) :
    (traceConcurrent urls probe order).map Prod.fst = urls ∧
    ∀ u ∈ urls,
      assocGet (traceConcurrent urls probe order) u =
        some ((order.filter (fun tk => tk.1 == u)).map probe) ∧
      ((order.filter (fun tk => tk.1 == u)).map probe).length = k := by
  constructor
  · rw [traceConcurrent, foldl_append_keys, emptyResults_keys]
  · intro u hu
    constructor
    · rw [traceConcurrent, assocGet_foldl, assocGet_empty urls u hu]
      simp
    · rw [List.length_map]
      have h1 := (hperm.filter (fun tk => tk.1 == u)).length_eq
      rw [h1, tasks_filter_mem k urls hnd u hu, List.length_map, List.length_range]

/-- C5 witness: two targets, two repetitions, completion in reversed
submission order still yields 2 records under target `wa`. -/
theorem claim_c5_concurrent_witness :
    assocGet (traceConcurrent urlsW probeW orderW) (("wa").data) =
      some ((orderW.filter (fun tk => tk.1 == ("wa").data)).map probeW) ∧
    ((orderW.filter (fun tk => tk.1 == ("wa").data)).map probeW).length = 2 :=
  (claim_c5_concurrent urlsW 2 probeW orderW (by decide)
    (List.reverse_perm (tbTasks urlsW 2))).2 (("wa").data) (by decide)
